import Mathlib

/-!
# Verification of the xian-vl capture→OCR→translate→overlay pipeline

Shallow embedding of the core pipeline of the repository:
* `translation_workers.py` — the OCR worker cycle (`_translate_with_ocr`),
  its image/OCR-fingerprint caches, result fingerprints and redaction;
* `translation_service.py` — `TransformersTranslator.translate_text_regions`
  and its per-string LRU cache (`_cache_get` / `_cache_set`);
* `overlay_ui.py` / `overlay.py` — `TranslationOverlay.update_translations`:
  fragment merging, bubble matching/creation, and the population cap;
* `workers.py` / `translation_workers.py` — the worker loops' sleep
  scheduling.

Modelling conventions: Python floats are modelled as `ℚ` (all arithmetic in
the pipeline is exact on the dyadic/integer values that occur), Python ints
as `ℤ`/`ℕ`, `OrderedDict`s as association lists whose HEAD is the
least-recently-used entry and whose last element is the most-recently-used
entry, and external collaborators (screen capture, EasyOCR, the transformers
model) as oracle parameters.
-/

namespace Xian

/-! ## Kernel-computable rational arithmetic

Core `Rat.add`/`Rat.sub`/`Rat.mul`/`Rat.div` do not reduce inside the
kernel, so the embedding uses its own exact operations built from
`Rat.divInt` (which does reduce), together with lemmas identifying them
with the mathematical operations on `ℚ`. -/

/-- Exact rational addition, kernel-computable. -/
def qadd (a b : ℚ) : ℚ := Rat.divInt (a.num * b.den + b.num * a.den) (a.den * b.den)

/-- Exact rational subtraction, kernel-computable. -/
def qsub (a b : ℚ) : ℚ := Rat.divInt (a.num * b.den - b.num * a.den) (a.den * b.den)

/-- Exact rational multiplication, kernel-computable. -/
def qmul (a b : ℚ) : ℚ := Rat.divInt (a.num * b.num) (a.den * b.den)

/-- Exact rational (true) division, kernel-computable. -/
def qdiv (a b : ℚ) : ℚ := Rat.divInt (a.num * b.den) (a.den * b.num)

/-- Exact absolute value, kernel-computable. -/
def qabs (a : ℚ) : ℚ := if a < 0 then Rat.divInt (-a.num) a.den else a

/-! ## Python string primitives -/

/-- Python `str.strip()` (whitespace from both ends), kernel-computable
(`String.trim` does not reduce in the kernel). -/
def pyStrip (s : String) : String :=
  ⟨((s.data.dropWhile Char.isWhitespace).reverse.dropWhile Char.isWhitespace).reverse⟩

/-- Python `str.lower()`. -/
def pyLower (s : String) : String := ⟨s.data.map Char.toLower⟩

/-- Substring test on character lists (Python `needle in hay`). -/
def listContainsSub (needle : List Char) : List Char → Bool
  | [] => needle.isEmpty
  | c :: rest => needle.isPrefixOf (c :: rest) || listContainsSub needle rest

/-- Python `needle in hay` on strings. -/
def pyIn (needle hay : String) : Bool := listContainsSub needle.data hay.data

/-- Code-point comparison of characters (`String.decidableLT` does not
reduce in the kernel, so string ordering is implemented directly). -/
def charLtB (a b : Char) : Bool := a.toNat < b.toNat

/-- Lexicographic code-point `<` on character lists (Python `str` `<`). -/
def strLtB : List Char → List Char → Bool
  | [], [] => false
  | [], _ :: _ => true
  | _ :: _, [] => false
  | a :: as, b :: bs => charLtB a b || (a.toNat = b.toNat && strLtB as bs)

/-- Python `<` on strings. -/
def pyStrLt (a b : String) : Bool := strLtB a.data b.data

/-! ## Stable sorting (Python `sorted` / `list.sort`) -/

/-- Insert `x` into the sorted list, after all entries `y` with `le y x`
(this is what makes the sort stable). -/
def insertStable (le : α → α → Bool) (x : α) : List α → List α
  | [] => [x]
  | y :: ys => if le y x then y :: insertStable le x ys else x :: y :: ys

/-- Stable insertion sort, modelling Python's stable `sorted`. -/
def stableSort (le : α → α → Bool) (l : List α) : List α :=
  l.foldl (fun acc x => insertStable le x acc) []

/-! ## Data model (`models.py`) -/

/-- `models.py` `TranslationResult` dataclass: the unit exchanged with the
render layer.  Floats are modelled as rationals. -/
structure TranslationResult where
  translated_text : String
  x : ℚ
  y : ℚ
  width : ℚ
  height : ℚ
  confidence : ℚ := 1
  deriving DecidableEq, Repr

/-- An OCR region dict as built by `_translate_with_ocr`
(`{"text": ..., "x": ..., "y": ..., "width": ..., "height": ...}`). -/
structure OcrRegion where
  text : String
  x : ℚ
  y : ℚ
  width : ℚ
  height : ℚ
  deriving DecidableEq, Repr

/-! ## LRU caches

All three tiers are Python `OrderedDict`s with the same store discipline:
`cache[key] = value`, `cache.move_to_end(key)`, then
`while len(cache) > max: cache.popitem(last=False)`.  An `OrderedDict` is
modelled as an association list; assignment-plus-`move_to_end` is
remove-then-append, `popitem(last=False)` pops the head. -/

/-- `while len(cache) > maxItems: cache.popitem(last=False)`. -/
def lruEvict (maxItems : ℕ) (c : List (α × β)) : List (α × β) :=
  c.drop (c.length - maxItems)

/-- `cache[key] = value; cache.move_to_end(key); evict` — shared shape of
`TransformersTranslator._cache_set`, `_store_translation_signature` and the
final store+evict step of `_store_image_cache`. -/
def cacheSet [DecidableEq α] (maxItems : ℕ) (c : List (α × β)) (k : α) (v : β) :
    List (α × β) :=
  lruEvict maxItems ((c.filter fun p => p.1 ≠ k) ++ [(k, v)])

/-- `TransformersTranslator._cache_get`: a hit moves the key to the
most-recently-used end; returns the value and the updated cache. -/
def cacheGet [DecidableEq α] (c : List (α × β)) (k : α) :
    Option β × List (α × β) :=
  match c.lookup k with
  | none => (none, c)
  | some v => (some v, (c.filter fun p => p.1 ≠ k) ++ [(k, v)])

/-! ## Python `min`/`max`/`round` on floats -/

/-- Python `min(a, b)`. -/
def qmin (a b : ℚ) : ℚ := if a ≤ b then a else b

/-- Python `max(a, b)`. -/
def qmax (a b : ℚ) : ℚ := if b ≤ a then a else b

/-- Python `round` to an integer: round-half-to-even (banker's rounding). -/
def pyRound (q : ℚ) : ℤ :=
  let f := q.floor
  let frac := qsub q (mkRat f 1)
  if frac < mkRat 1 2 then f
  else if mkRat 1 2 < frac then f + 1
  else if f % 2 = 0 then f else f + 1

/-! ## QRect / QPoint / QImage geometry (PyQt) -/

/-- An integer `QRect`, stored as `(x, y, width, height)`. -/
structure QRect where
  x : ℤ
  y : ℤ
  w : ℤ
  h : ℤ
  deriving DecidableEq, Repr

def QRect.left (r : QRect) : ℤ := r.x

def QRect.top (r : QRect) : ℤ := r.y

/-- `QRect::right() = x() + width() - 1`. -/
def QRect.right (r : QRect) : ℤ := r.x + r.w - 1

/-- `QRect::bottom() = y() + height() - 1`. -/
def QRect.bottom (r : QRect) : ℤ := r.y + r.h - 1

/-- `QRect::intersects`: non-empty overlap of the closed pixel spans. -/
def QRect.intersects (a b : QRect) : Bool :=
  max a.left b.left ≤ min a.right b.right && max a.top b.top ≤ min a.bottom b.bottom

/-- `QRect::intersected` (meaningful when `intersects`). -/
def QRect.intersected (a b : QRect) : QRect :=
  let l := max a.left b.left
  let t := max a.top b.top
  ⟨l, t, min a.right b.right - l + 1, min a.bottom b.bottom - t + 1⟩

/-- `QRect::united`. -/
def QRect.united (a b : QRect) : QRect :=
  let l := min a.left b.left
  let t := min a.top b.top
  ⟨l, t, max a.right b.right - l + 1, max a.bottom b.bottom - t + 1⟩

/-- `QRect::center() = QPoint((left+right)/2, (top+bottom)/2)` with C++
truncating integer division. -/
def QRect.center (r : QRect) : ℤ × ℤ :=
  (Int.tdiv (r.left + r.right) 2, Int.tdiv (r.top + r.bottom) 2)

/-- `QPoint::manhattanLength()` of the difference of two points. -/
def manhattanLength (p q : ℤ × ℤ) : ℤ := |p.1 - q.1| + |p.2 - q.2|

/-- Membership of a pixel in the closed pixel span covered by a filled rect. -/
def QRect.containsPt (r : QRect) (px py : ℤ) : Bool :=
  r.x ≤ px && px ≤ r.right && r.y ≤ py && py ≤ r.bottom

/-- An RGBA color; `QColor(0, 0, 0)` is fully opaque black. -/
structure Color where
  r : ℕ
  g : ℕ
  b : ℕ
  a : ℕ
  deriving DecidableEq, Repr

/-- Solid opaque black, the brush used by `_redact_image`. -/
def blackOpaque : Color := ⟨0, 0, 0, 255⟩

/-- A raster image as a pixel map. -/
def Image : Type := ℤ → ℤ → Color

/-! ## Redaction (`TranslationWorker._redact_image`) -/

/-- The rectangle actually painted for one geometry:
`adj_rect = rect.translated(-offset)` followed by
`adj_rect.adjust(-margin, -margin, margin, margin)`. -/
def redactedRect (margin : ℤ) (offset : ℤ × ℤ) (r : QRect) : QRect :=
  ⟨r.x - offset.1 - margin, r.y - offset.2 - margin, r.w + 2 * margin, r.h + 2 * margin⟩

/-- `_redact_image`: paint a solid opaque black rectangle (brush
`QColor(0,0,0)`, `NoPen`) over every adjusted geometry; with no geometries
the image is returned unchanged. -/
def redactImage (margin : ℤ) (offset : ℤ × ℤ) (geoms : List QRect) (img : Image) :
    Image :=
  if geoms = [] then img
  else fun px py =>
    if geoms.any fun r => (redactedRect margin offset r).containsPt px py then blackOpaque
    else img px py

/-! ## Fingerprints (`_fingerprint_ocr_regions` / `_fingerprint_translations`) -/

/-- One fingerprint tuple `(int(round(x)), int(round(y)), int(round(width)),
int(round(height)), text.strip())`. -/
structure FpEntry where
  rx : ℤ
  ry : ℤ
  rw : ℤ
  rh : ℤ
  text : String
  deriving DecidableEq, Repr

/-- Lexicographic `<` on fingerprint tuples (Python tuple comparison). -/
def fpLt (a b : FpEntry) : Bool :=
  a.rx < b.rx || (a.rx = b.rx && (a.ry < b.ry || (a.ry = b.ry &&
    (a.rw < b.rw || (a.rw = b.rw &&
      (a.rh < b.rh || (a.rh = b.rh && pyStrLt a.text b.text)))))))

/-- Python `sorted` on fingerprint tuples. -/
def sortFp (l : List FpEntry) : List FpEntry := stableSort (fun a b => !(fpLt b a)) l

/-- `_fingerprint_ocr_regions`: canonical sorted tuple of rounded
geometry plus stripped text; the key of the OCR-fingerprint cache. -/
def fingerprintOcrRegions (regs : List OcrRegion) : List FpEntry :=
  sortFp (regs.map fun r =>
    ⟨pyRound r.x, pyRound r.y, pyRound r.width, pyRound r.height, pyStrip r.text⟩)

/-- A translation-set signature: either a fingerprint tuple or the
distinguished `_empty_signature = ("__empty__",)` marker. -/
inductive Sig where
  | fpT : List FpEntry → Sig
  | emptyMarker : Sig
  deriving DecidableEq, Repr

/-- `_fingerprint_translations`: canonical sorted tuple of rounded geometry
plus stripped translated text. -/
def fingerprintTranslations (ts : List TranslationResult) : Sig :=
  .fpT (sortFp (ts.map fun t =>
    ⟨pyRound t.x, pyRound t.y, pyRound t.width, pyRound t.height,
      pyStrip t.translated_text⟩))

/-! ## Worker state and cycle (`TranslationWorker._translate_with_ocr`) -/

/-- One `image_cache` entry: `{"ocr": list | absent, "translations": list | absent}`. -/
structure ImageCacheEntry where
  ocr : Option (List OcrRegion)
  translations : Option (List TranslationResult)
  deriving DecidableEq, Repr

/-- The worker's mutable state relevant to one full-screen OCR cycle. -/
structure WorkerState where
  lastHashFull : Option String
  imageCache : List (String × ImageCacheEntry)
  ocrTranslationCache : List (List FpEntry × List TranslationResult)
  lastTranslationSignature : Option Sig
  deriving DecidableEq, Repr

/-- `self.image_cache_max = 8`. -/
def imageCacheMax : ℕ := 8

/-- `self.translation_cache_max = 16` (the OCR-fingerprint cache bound). -/
def translationCacheMax : ℕ := 16

/-- The entry written by `_store_image_cache`: start from the existing
entry for this hash (`self.image_cache.get(image_hash, {})`) and overwrite
only the fields passed as non-`None`. -/
def mergedImageEntry (c : List (String × ImageCacheEntry)) (h : String)
    (ocrRegions : Option (List OcrRegion))
    (translations : Option (List TranslationResult)) : ImageCacheEntry :=
  let old := (c.lookup h).getD ⟨none, none⟩
  ⟨match ocrRegions with | some o => some o | none => old.ocr,
   match translations with | some t => some t | none => old.translations⟩

/-- `TranslationWorker._store_image_cache`: merge the new fields into any
existing entry for this hash, move it to the most-recently-used end, then
evict from the least-recently-used end while over capacity. -/
def storeImageCache (c : List (String × ImageCacheEntry)) (h : String)
    (ocrRegions : Option (List OcrRegion))
    (translations : Option (List TranslationResult)) :
    List (String × ImageCacheEntry) :=
  cacheSet imageCacheMax c h (mergedImageEntry c h ocrRegions translations)

/-- `TranslationWorker._store_translation_signature`. -/
def storeTranslationSignature (c : List (List FpEntry × List TranslationResult))
    (sig : List FpEntry) (ts : List TranslationResult) :
    List (List FpEntry × List TranslationResult) :=
  cacheSet translationCacheMax c sig ts

/-- The guarded emission shared by all three emission sites of
`_translate_with_ocr`: compare the fingerprint of the about-to-be-emitted
set against `_last_translation_signature`; when equal, suppress the
`translation_ready` signal, otherwise record the signature and emit. -/
def emitIfChanged (s : WorkerState) (ts : List TranslationResult) :
    WorkerState × Option (List TranslationResult) :=
  let sig := fingerprintTranslations ts
  if some sig = s.lastTranslationSignature then (s, none)
  else ({s with lastTranslationSignature := some sig}, some ts)

/-- One raw EasyOCR result `(bbox, text, prob)` with
`bbox = [[x0,y0],[x1,y1],[x2,y2],[x3,y3]]`. -/
structure RawOcr where
  p0 : ℚ × ℚ
  p1 : ℚ × ℚ
  p2 : ℚ × ℚ
  p3 : ℚ × ℚ
  text : String
  prob : ℚ
  deriving DecidableEq, Repr

/-- Outcome of `self.ocr_reader.readtext(image_data)`: either the raised
exception (caught at the `except` of the OCR block) or the raw result list. -/
inductive OcrOutcome where
  | err : OcrOutcome
  | ok : List RawOcr → OcrOutcome
  deriving DecidableEq, Repr

/-- Conversion of raw EasyOCR results to region dicts: drop entries with
`prob < 0.2`, take the bounding box of the four quad points. -/
def convertRawOcr (results : List RawOcr) : List OcrRegion :=
  results.filterMap fun r =>
    if r.prob < mkRat 1 5 then none
    else
      let x := qmin (qmin r.p0.1 r.p1.1) (qmin r.p2.1 r.p3.1)
      let y := qmin (qmin r.p0.2 r.p1.2) (qmin r.p2.2 r.p3.2)
      let xMax := qmax (qmax r.p0.1 r.p1.1) (qmax r.p2.1 r.p3.1)
      let yMax := qmax (qmax r.p0.2 r.p1.2) (qmax r.p2.2 r.p3.2)
      some ⟨r.text, x, y, qsub xMax x, qsub yMax y⟩

/-- The tail of `_translate_with_ocr` from the OCR-fingerprint lookup on:
try the OCR-signature cache (`if cached_translations:` — present AND
non-empty), else call the translator; store results and emit if changed. -/
def translateStage (s : WorkerState) (h : String) (ocrRegions : List OcrRegion)
    (translate : List OcrRegion → List TranslationResult) :
    WorkerState × Option (List TranslationResult) :=
  match s.ocrTranslationCache.lookup (fingerprintOcrRegions ocrRegions) with
  | some (c0 :: cRest) =>
    emitIfChanged
      {s with imageCache :=
        storeImageCache s.imageCache h (some ocrRegions) (some (c0 :: cRest))}
      (c0 :: cRest)
  | _ =>
    match translate ocrRegions with
    | [] => (s, none)
    | t0 :: tRest =>
      emitIfChanged
        {s with
          imageCache :=
            storeImageCache s.imageCache h (some ocrRegions) (some (t0 :: tRest)),
          ocrTranslationCache :=
            storeTranslationSignature s.ocrTranslationCache
              (fingerprintOcrRegions ocrRegions) (t0 :: tRest)}
        (t0 :: tRest)

/-- The OCR block of `_translate_with_ocr`: run EasyOCR; an exception
abandons the cycle; an empty raw result (or every region filtered out)
stores the OCR entry, records `_empty_signature` and returns. -/
def ocrStage (s : WorkerState) (h : String) (ocr : OcrOutcome)
    (translate : List OcrRegion → List TranslationResult) :
    WorkerState × Option (List TranslationResult) :=
  match ocr with
  | .err => (s, none)
  | .ok results =>
    if results = [] then
      ({s with
        imageCache := storeImageCache s.imageCache h (some []) none,
        lastTranslationSignature := some .emptyMarker}, none)
    else if convertRawOcr results = [] then
      ({s with
        imageCache := storeImageCache s.imageCache h (some (convertRawOcr results)) none,
        lastTranslationSignature := some .emptyMarker}, none)
    else
      translateStage
        {s with imageCache :=
          storeImageCache s.imageCache h (some (convertRawOcr results)) none}
        h (convertRawOcr results) translate

/-- `_translate_with_ocr` from the image-hash lookup on: image-cache hit
with non-empty translations short-circuits (after recording the hash);
an unchanged hash skips the cycle; otherwise the OCR entry of the cache
or a fresh OCR run feeds the translate stage. -/
def cycleFromHash (s : WorkerState) (h : String) (ocr : OcrOutcome)
    (translate : List OcrRegion → List TranslationResult) :
    WorkerState × Option (List TranslationResult) :=
  match (s.imageCache.lookup h).bind (fun e => e.translations) with
  | some (t0 :: tRest) =>
    emitIfChanged {s with lastHashFull := some h} (t0 :: tRest)
  | _ =>
    if some h = s.lastHashFull then (s, none)
    else
      match (s.imageCache.lookup h).bind (fun e => e.ocr) with
      | some regs =>
        translateStage {s with lastHashFull := some h} h regs translate
      | none => ocrStage {s with lastHashFull := some h} h ocr translate

/-- One whole worker cycle of `_translate_with_ocr`: capture (abandon the
cycle if it yields nothing), redact the live-annotation geometries, run the
external preprocessing, hash the processed image and continue from the hash
stage.  `pre`, `hashOf` and `ocrOf` are the external collaborators
(`ScreenCapture.preprocess_image`, `ScreenCapture.calculate_hash`, EasyOCR). -/
def cycleFull (s : WorkerState) (margin : ℤ) (offset : ℤ × ℤ) (geoms : List QRect)
    (capture : Option Image) (pre : Image → Image) (hashOf : Image → String)
    (ocrOf : Image → OcrOutcome)
    (translate : List OcrRegion → List TranslationResult) :
    WorkerState × Option (List TranslationResult) :=
  match capture with
  | none => (s, none)
  | some img =>
    cycleFromHash s
      (hashOf (pre (if geoms = [] then img else redactImage margin offset geoms img)))
      (ocrOf (pre (if geoms = [] then img else redactImage margin offset geoms img)))
      translate

/-! ### Concrete worker-cycle scenarios (used as witness inputs) -/

/-- A raw OCR hit: text `"hi"` in the unit box at the origin, confidence 1. -/
def wkRaw : RawOcr := ⟨(0, 0), (10, 0), (10, 10), (0, 10), "hi", 1⟩

/-- A concrete translation result for `wkRaw`. -/
def wkTr : TranslationResult := ⟨"Hello", 0, 0, 10, 10, 1⟩

/-- The worker's initial state (`__init__`): no hash, empty caches, no
signature. -/
def wkS0 : WorkerState := ⟨none, [], [], none⟩

/-- A translator oracle that always produces `[wkTr]`. -/
def wkTranslate : List OcrRegion → List TranslationResult := fun _ => [wkTr]

/-- A translator oracle that always fails to produce results. -/
def wkTranslateFail : List OcrRegion → List TranslationResult := fun _ => []

/-- A constant grey raster. -/
def wkImg : Image := fun _ _ => ⟨7, 7, 7, 255⟩

/-- Cycle 1 of the C1 trace: fresh image `"h1"`, OCR finds `wkRaw`,
translation succeeds, `[wkTr]` is emitted. -/
def wkCycle1 : WorkerState × Option (List TranslationResult) :=
  cycleFromHash wkS0 "h1" (.ok [wkRaw]) wkTranslate

/-- Cycle 2 of the C1 trace: a different image `"h2"` on which OCR finds no
text; `_last_translation_signature` is overwritten with the
`("__empty__",)` marker. -/
def wkCycle2 : WorkerState × Option (List TranslationResult) :=
  cycleFromHash wkCycle1.1 "h2" (.ok []) wkTranslate

/-- Cycle 3 of the C1 trace: image `"h1"` again; the image cache still holds
its translations, whose fingerprint equals the fingerprint of the set
emitted in cycle 1. -/
def wkCycle3 : WorkerState × Option (List TranslationResult) :=
  cycleFromHash wkCycle2.1 "h1" (.ok [wkRaw]) wkTranslate

/-! ## Overlay: merging, matching and population cap
(`TranslationOverlay.update_translations`, `overlay_ui.py`; the same
algorithm appears in `overlay.py`) -/

/-- Python `int(...)` on a float: truncation toward zero. -/
def pyInt (q : ℚ) : ℤ := Int.tdiv q.num q.den

/-- `mkRat n 1`: a Python int used where a float is expected. -/
def intToQ (n : ℤ) : ℚ := mkRat n 1

/-- The source rectangle of a result:
`QRect(int(r.x), int(r.y), int(r.width), int(r.height))`. -/
def srcRect (t : TranslationResult) : QRect :=
  ⟨pyInt t.x, pyInt t.y, pyInt t.width, pyInt t.height⟩

/-- The key order of `sorted(translations, key=lambda r: (r.y, r.x))`. -/
def resultLe (a b : TranslationResult) : Bool :=
  a.y < b.y || (a.y = b.y && a.x ≤ b.x)

/-- `translations = translations[:50]` when more than 50 results arrive. -/
def truncate50 (ts : List TranslationResult) : List TranslationResult :=
  if 50 < ts.length then ts.take 50 else ts

/-- One step of the merge pass: test `res` against the existing merge
groups in order; a same-line duplicate (equal stripped text, |x-gap| < 50)
is dropped, a same-line adjacent fragment (−20 < x-gap < 40) is merged into
the group (append text space-separated unless it is a lowercase substring,
extend the right edge, take the max height and min y); otherwise `res`
starts a new group. -/
def mergeInto : List TranslationResult → TranslationResult → List TranslationResult
  | [], res => [res]
  | e :: rest, res =>
    if qabs (qsub e.y res.y) < 20
        ∧ pyStrip res.translated_text = pyStrip e.translated_text
        ∧ qabs (qsub res.x (qadd e.x e.width)) < 50 then
      e :: rest
    else if qabs (qsub e.y res.y) < 20
        ∧ -20 < qsub res.x (qadd e.x e.width)
        ∧ qsub res.x (qadd e.x e.width) < 40 then
      { e with
        translated_text :=
          if pyIn (pyLower (pyStrip res.translated_text)) (pyLower e.translated_text)
          then e.translated_text
          else e.translated_text ++ " " ++ res.translated_text,
        width := qsub (qmax (qadd e.x e.width) (qadd res.x res.width)) e.x,
        height := qmax e.height res.height,
        y := qmin e.y res.y } :: rest
    else e :: mergeInto rest res

/-- The whole merge pass over the sorted results. -/
def mergeResults (l : List TranslationResult) : List TranslationResult :=
  l.foldl mergeInto []

/-- The input preprocessing of `update_translations` (combine-nearby-lines
mode off): truncate to 50, sort by `(y, x)`, merge fragments. -/
def clusterInput (ts : List TranslationResult) : List TranslationResult :=
  mergeResults (stableSort resultLe (truncate50 ts))

/-- A live annotation bubble: its current result, and whether it was
matched or created in the present update cycle (`matched_bubble_ids`). -/
structure Bubble where
  result : TranslationResult
  matched : Bool
  deriving DecidableEq, Repr

/-- `TranslationBubble.update_content`: a changed text replaces the result;
an unchanged text replaces it only when the origin moved by a Manhattan
distance above 5 pixels. -/
def updateContent (old new : TranslationResult) : TranslationResult :=
  if old.translated_text ≠ new.translated_text then new
  else if 5 < manhattanLength (pyInt old.x, pyInt old.y) (pyInt new.x, pyInt new.y)
    then new
  else old

/-- Whether `s` ends with a newline (`base.translated_text.endswith("\n")`). -/
def endsWithNewline (s : String) : Bool :=
  match s.data.getLast? with
  | some c => c = '\n'
  | none => false

/-- The append-below update: append the new stripped text on a new line and
expand the source rect to the union. -/
def appendBelowResult (target res : TranslationResult) : TranslationResult :=
  { target with
    translated_text :=
      if endsWithNewline target.translated_text
      then target.translated_text ++ pyStrip res.translated_text
      else target.translated_text ++ "\n" ++ pyStrip res.translated_text,
    x := intToQ ((srcRect target).united (srcRect res)).x,
    y := intToQ ((srcRect target).united (srcRect res)).y,
    width := intToQ ((srcRect target).united (srcRect res)).w,
    height := intToQ ((srcRect target).united (srcRect res)).h }

/-- Append-below detection: the new source rect sits 0–36 px beneath the
existing one with horizontal overlap of at least 30% of the narrower
width. -/
def appendBelowCond (exR newR : QRect) : Bool :=
  0 ≤ newR.top - exR.bottom && newR.top - exR.bottom ≤ 36
    && qmul (intToQ (min exR.w newR.w)) (mkRat 3 10)
        ≤ intToQ (min exR.right newR.right - max exR.left newR.left)

/-- The text-similarity component: equal or mutually containing normalized
texts within a Manhattan origin distance of 500 px score
`0.7 + (1 − min(1, dist/500)) · 0.3`. -/
def textScore (ex res : TranslationResult) : ℚ :=
  if pyLower (pyStrip ex.translated_text) = pyLower (pyStrip res.translated_text)
      ∨ pyIn (pyLower (pyStrip ex.translated_text)) (pyLower (pyStrip res.translated_text)) = true
      ∨ pyIn (pyLower (pyStrip res.translated_text)) (pyLower (pyStrip ex.translated_text)) = true then
    if qadd (qabs (qsub ex.x res.x)) (qabs (qsub ex.y res.y)) < 500 then
      qadd (mkRat 7 10)
        (qmul
          (qsub 1 (qmin 1 (qdiv (qadd (qabs (qsub ex.x res.x)) (qabs (qsub ex.y res.y))) 500)))
          (mkRat 3 10))
    else 0
  else 0

/-- Intersection-over-union of the two source rectangles (0 when they do
not intersect). -/
def iouScore (exR newR : QRect) : ℚ :=
  if exR.intersects newR then
    qdiv (intToQ ((exR.intersected newR).w * (exR.intersected newR).h))
      (intToQ ((exR.united newR).w * (exR.united newR).h))
  else 0

/-- The similarity score of one bubble against one new result: the maximum
of the text score, the IoU, and (within 100 px center distance) the
center-proximity score `(1 − c_dist/100) · 0.6`. -/
def similarityScore (ex res : TranslationResult) : ℚ :=
  if manhattanLength (srcRect ex).center (srcRect res).center < 100 then
    qmax (qmax (textScore ex res) (iouScore (srcRect ex) (srcRect res)))
      (qmul
        (qsub 1 (qdiv (intToQ (manhattanLength (srcRect ex).center (srcRect res).center)) 100))
        (mkRat 3 5))
  else qmax (textScore ex res) (iouScore (srcRect ex) (srcRect res))

/-- The running state of the scan over `self.bubbles`: the best-scoring
bubble so far (`best_match` / `highest_score`, strict improvement only) and
the last bubble satisfying the append-below test (`append_below_target`). -/
structure ScanAcc where
  bestIdx : Option ℕ
  bestScore : ℚ
  appendIdx : Option ℕ
  deriving DecidableEq, Repr

/-- One iteration of the bubble scan for a fixed new result. -/
def scanStep (res : TranslationResult) (acc : ScanAcc) (i : ℕ) (b : Bubble) : ScanAcc :=
  if acc.bestScore < similarityScore b.result res then
    { bestIdx := some i,
      bestScore := similarityScore b.result res,
      appendIdx :=
        if appendBelowCond (srcRect b.result) (srcRect res) then some i
        else acc.appendIdx }
  else
    { acc with
      appendIdx :=
        if appendBelowCond (srcRect b.result) (srcRect res) then some i
        else acc.appendIdx }

/-- Scan the bubble list, carrying the index. -/
def scanGo (res : TranslationResult) : List Bubble → ℕ → ScanAcc → ScanAcc
  | [], _, acc => acc
  | b :: rest, i, acc => scanGo res rest (i + 1) (scanStep res acc i b)

/-- The full scan of `self.bubbles` for one merged result. -/
def scanBubbles (bubbles : List Bubble) (res : TranslationResult) : ScanAcc :=
  scanGo res bubbles 0 ⟨none, 0, none⟩

/-- The decision tail shared by both branches: update the best-scoring
bubble in place when its score exceeds 0.4, else create a new bubble
(created bubbles are marked matched). -/
def bestOrCreate (bubbles : List Bubble) (res : TranslationResult) (acc : ScanAcc) :
    List Bubble :=
  match acc.bestIdx with
  | some i =>
    if mkRat 2 5 < acc.bestScore then
      match bubbles.get? i with
      | some b => bubbles.set i ⟨updateContent b.result res, true⟩
      | none => bubbles
    else bubbles ++ [⟨res, true⟩]
  | none => bubbles ++ [⟨res, true⟩]

/-- Process one merged result against the live bubbles: append-below wins
when detected (and the new text is non-blank), otherwise the best match is
updated in place when above the 0.4 cutoff, otherwise a new bubble is
created. -/
def processResult (bubbles : List Bubble) (res : TranslationResult) : List Bubble :=
  match (scanBubbles bubbles res).appendIdx with
  | some i =>
    if pyStrip res.translated_text ≠ "" then
      match bubbles.get? i with
      | some b =>
        bubbles.set i ⟨updateContent b.result (appendBelowResult b.result res), true⟩
      | none => bubbles
    else bestOrCreate bubbles res (scanBubbles bubbles res)
  | none => bestOrCreate bubbles res (scanBubbles bubbles res)

/-- The match-or-create phase of one update cycle: all pre-existing bubbles
start unmatched, each merged result is processed in order. -/
def matchPhase (bubbles : List TranslationResult) (ts : List TranslationResult) :
    List Bubble :=
  (clusterInput ts).foldl processResult (bubbles.map fun r => ⟨r, false⟩)

/-- `MAX_BUBBLES = 50`. -/
def maxBubbles : ℕ := 50

/-- The closing loop of the population cap: walk the bubbles oldest first,
closing unmatched ones until `n` have been closed; the returned list is
the surviving (live) bubbles. -/
def capClose : ℕ → List Bubble → List Bubble
  | 0, l => l
  | _ + 1, [] => []
  | n + 1, b :: rest => if b.matched then b :: capClose (n + 1) rest else capClose n rest

/-- Step 4 of `update_translations`: when over the 50-bubble cap, close
oldest unmatched bubbles until the excess is gone. -/
def capStep (l : List Bubble) : List Bubble :=
  if maxBubbles < l.length then capClose (l.length - maxBubbles) l else l

/-- One whole `update_translations` call (full-screen path: no
`updated_area`, combine mode off): empty input preserves the overlay;
otherwise truncate/sort/merge, match or create, and apply the population
cap.  Returns the results of the surviving live bubbles. -/
def updateTranslations (bubbles : List TranslationResult)
    (ts : List TranslationResult) : List TranslationResult :=
  if ts.isEmpty then bubbles
  else (capStep (matchPhase bubbles ts)).map Bubble.result

/-! ### Concrete overlay scenarios (used as witness inputs) -/

/-- Fragment `("Hel", 0, 0, 20, 20)`. -/
def frHel : TranslationResult := ⟨"Hel", 0, 0, 20, 20, 1⟩

/-- Fragment `("lo", 22, 0, 20, 20)`. -/
def frLo : TranslationResult := ⟨"lo", 22, 0, 20, 20, 1⟩

/-- The merged fragment `("Hel lo", 0, 0, 42, 20)`. -/
def frMerged : TranslationResult := ⟨"Hel lo", 0, 0, 42, 20, 1⟩

/-- 50 existing far-apart annotations. -/
def ovB50 : List TranslationResult :=
  (List.range 50).map fun i => ⟨"x", 0, mkRat (700 * (i : ℤ)) 1, 10, 10, 1⟩

/-- A single new result matching none of `ovB50`. -/
def ovNew : TranslationResult := ⟨"y", 100000, 100000, 10, 10, 1⟩

/-- An existing annotation for the identical-text zero-distance scenario. -/
def ovHello : TranslationResult := ⟨"hello", 10, 10, 30, 20, 1⟩

/-- The bubbles of a cycle state that were matched or created this cycle. -/
def matchedFilter (l : List Bubble) : List Bubble := l.filter fun b => b.matched

/-- The bubbles of a cycle state not matched or created this cycle. -/
def unmatchedFilter (l : List Bubble) : List Bubble := l.filter fun b => !b.matched

/-! ## Translation service cache (`translation_service.py`) -/

/-- The per-string cache key
`(effective_model_name, text, source_lang, target_lang)`. -/
structure TranslationCacheKey where
  model : String
  text : String
  source_lang : String
  target_lang : String
  deriving DecidableEq, Repr

/-- `self.cache_max_items = 500`. -/
def cacheMaxItems : ℕ := 500

/-- `TransformersTranslator._cache_set` at the per-string cache type. -/
def translatorCacheSet (c : List (TranslationCacheKey × String))
    (k : TranslationCacheKey) (v : String) : List (TranslationCacheKey × String) :=
  cacheSet cacheMaxItems c k v

/-- `TransformersTranslator._cache_get` at the per-string cache type. -/
def translatorCacheGet (c : List (TranslationCacheKey × String))
    (k : TranslationCacheKey) : Option String × List (TranslationCacheKey × String) :=
  cacheGet c k


/-- The cache key tuple `(effective_model_name, text, source_lang, target_lang)`. -/
def mkCacheKey (model text src tgt : String) : TranslationCacheKey :=
  ⟨model, text, src, tgt⟩

/-- The `TranslationResult` built for one region in
`translate_text_regions` (coordinates of the region, confidence default). -/
def mkResult (r : OcrRegion) (s : String) : TranslationResult :=
  ⟨s, r.x, r.y, r.width, r.height, 1⟩

/-- State of the first loop of `translate_text_regions`: the (reordered)
cache, the `results` list (one slot per non-blank region, `None` for cache
misses) and the zipped `to_translate_indices` / `to_translate` lists. -/
structure Phase1Acc where
  cache : List (TranslationCacheKey × String)
  results : List (Option TranslationResult)
  misses : List (ℕ × String)
  deriving Repr

/-- One iteration of the first loop: blank text is skipped; a cache hit
appends a finished result (and refreshes the key), a miss appends a `None`
placeholder and records the region index and text for the batch. -/
def phase1Step (model src tgt : String) (acc : Phase1Acc) (ir : ℕ × OcrRegion) :
    Phase1Acc :=
  if pyStrip ir.2.text = "" then acc
  else
    match translatorCacheGet acc.cache (mkCacheKey model (pyStrip ir.2.text) src tgt) with
    | (some v, c2) => ⟨c2, acc.results ++ [some (mkResult ir.2 v)], acc.misses⟩
    | (none, c2) =>
      ⟨c2, acc.results ++ [none], acc.misses ++ [(ir.1, pyStrip ir.2.text)]⟩

/-- The first loop (`for i, region in enumerate(regions)`), carrying the
running index. -/
def phase1Go (model src tgt : String) :
    List OcrRegion → ℕ → Phase1Acc → Phase1Acc
  | [], _, acc => acc
  | r :: rest, i, acc =>
    phase1Go model src tgt rest (i + 1) (phase1Step model src tgt acc (i, r))

/-- The whole first loop of `translate_text_regions`. -/
def phase1 (model src tgt : String) (cache0 : List (TranslationCacheKey × String))
    (regions : List OcrRegion) : Phase1Acc :=
  phase1Go model src tgt regions 0 ⟨cache0, [], []⟩

/-- Outcome of the batched model call: `bosFail` models the explicit
`return []` when the target-language token id cannot be resolved, `error`
a raised exception (tokenize/generate/decode), `ok` the decoded batch. -/
inductive BatchOutcome where
  | bosFail : BatchOutcome
  | error : BatchOutcome
  | ok : List String → BatchOutcome
  deriving DecidableEq, Repr

/-- Placeholder region for the (unreachable in Python) out-of-range index. -/
def dfltRegion : OcrRegion := ⟨"", 0, 0, 0, 0⟩

/-- `for idx, text, translated_text in zip(...)`: store each translation in
the per-string cache, then write the finished result into its placeholder
slot; an out-of-range `results[idx]` raises `IndexError`, aborting the
rest of the loop (the current iteration's cache write has already
happened). -/
def applyBatch (model src tgt : String) (regions : List OcrRegion) :
    List ((ℕ × String) × String) → List (TranslationCacheKey × String) →
    List (Option TranslationResult) →
    List (TranslationCacheKey × String) × List (Option TranslationResult)
  | [], cache, results => (cache, results)
  | ((idx, text), tt) :: rest, cache, results =>
    if idx < results.length then
      applyBatch model src tgt regions rest
        (translatorCacheSet cache (mkCacheKey model text src tgt) tt)
        (results.set idx (some (mkResult (regions.getD idx dfltRegion) tt)))
    else (translatorCacheSet cache (mkCacheKey model text src tgt) tt, results)

/-- `TransformersTranslator.translate_text_regions` (after model load):
first loop over the regions against the per-string cache, then one batched
translation of the misses, then `[r for r in results if r is not None]`.
The batch call is the external model, passed as an oracle. -/
def translateTextRegions (model src tgt : String)
    (cache0 : List (TranslationCacheKey × String))
    (generate : List String → BatchOutcome) (regions : List OcrRegion) :
    List (TranslationCacheKey × String) × List TranslationResult :=
  if (phase1 model src tgt cache0 regions).misses.isEmpty then
    ((phase1 model src tgt cache0 regions).cache,
     (phase1 model src tgt cache0 regions).results.filterMap id)
  else
    match generate ((phase1 model src tgt cache0 regions).misses.map Prod.snd) with
    | .bosFail => ((phase1 model src tgt cache0 regions).cache, [])
    | .error =>
      ((phase1 model src tgt cache0 regions).cache,
       (phase1 model src tgt cache0 regions).results.filterMap id)
    | .ok texts =>
      ((applyBatch model src tgt regions
          ((phase1 model src tgt cache0 regions).misses.zip texts)
          (phase1 model src tgt cache0 regions).cache
          (phase1 model src tgt cache0 regions).results).1,
       (applyBatch model src tgt regions
          ((phase1 model src tgt cache0 regions).misses.zip texts)
          (phase1 model src tgt cache0 regions).cache
          (phase1 model src tgt cache0 regions).results).2.filterMap id)

/-- A result that carries the geometry of a non-blank input region. -/
def goodResult (regions : List OcrRegion) (t : TranslationResult) : Prop :=
  ∃ r ∈ regions, pyStrip r.text ≠ "" ∧ t.x = r.x ∧ t.y = r.y
    ∧ t.width = r.width ∧ t.height = r.height

/-- The spec's end-to-end example region. -/
def exRegionJp : OcrRegion := ⟨"こんにちは", 100, 100, 80, 20⟩

/-- The spec's end-to-end example output. -/
def exResultHello : TranslationResult := ⟨"Hello", 100, 100, 80, 20, 1⟩

/-- A batch oracle translating the example batch. -/
def exGenerate : List String → BatchOutcome :=
  fun l => if l = ["こんにちは"] then .ok ["Hello"] else .ok []

/-! ### Concrete caches (used as witness/counterexample inputs) -/

/-- A stub image-cache entry. -/
def imgEntryStub : ImageCacheEntry := ⟨some [], none⟩

/-- A full (8-entry) image cache, `"k1"` least recently used. -/
def imgC8 : List (String × ImageCacheEntry) :=
  [("k1", imgEntryStub), ("k2", imgEntryStub), ("k3", imgEntryStub),
   ("k4", imgEntryStub), ("k5", imgEntryStub), ("k6", imgEntryStub),
   ("k7", imgEntryStub), ("k8", imgEntryStub)]

/-- A full (16-entry) OCR-fingerprint cache with distinct signature keys. -/
def ocrC16 : List (List FpEntry × List TranslationResult) :=
  (List.range 16).map fun i => ([⟨(i : ℤ), 0, 0, 0, "k"⟩], [wkTr])

/-- Sleep computation in `TranslationWorker.run` of `translation_workers.py`:
`target_interval = 1000` ("Use 1 second interval as requested"),
`remaining = target_interval - elapsed`, `msleep(remaining)` if positive,
else `msleep(1)`.  `interval` models `self.interval`, which this loop does
not consult. -/
def runSleepMs (interval elapsed : ℤ) : ℤ :=
  let target_interval : ℤ := 1000
  let remaining := target_interval - elapsed
  if remaining > 0 then remaining else 1

/-- Sleep computation in `TranslationWorker.run` of the older `workers.py`:
`remaining = self.interval - elapsed`; if positive, sleep
`remaining // 100` ticks of 100 ms plus `remaining % 100`, else 100 ms. -/
def runSleepMsApi (interval elapsed : ℤ) : ℤ :=
  let remaining := interval - elapsed
  if remaining > 0 then 100 * (remaining / 100) + remaining % 100 else 100

/-! # Theorems

## General lemmas -/

theorem qadd_eq (a b : ℚ) : qadd a b = a + b := by
  have ha : ((a.den : ℚ)) ≠ 0 := Nat.cast_ne_zero.mpr a.den_nz
  have hb : ((b.den : ℚ)) ≠ 0 := Nat.cast_ne_zero.mpr b.den_nz
  conv_rhs => rw [← Rat.num_div_den a, ← Rat.num_div_den b]
  rw [qadd, Rat.divInt_eq_div, div_add_div _ _ ha hb]
  push_cast
  ring_nf

theorem qsub_eq (a b : ℚ) : qsub a b = a - b := by
  have ha : ((a.den : ℚ)) ≠ 0 := Nat.cast_ne_zero.mpr a.den_nz
  have hb : ((b.den : ℚ)) ≠ 0 := Nat.cast_ne_zero.mpr b.den_nz
  conv_rhs => rw [← Rat.num_div_den a, ← Rat.num_div_den b]
  rw [qsub, Rat.divInt_eq_div, div_sub_div _ _ ha hb]
  push_cast
  ring_nf

theorem qmul_eq (a b : ℚ) : qmul a b = a * b := by
  conv_rhs => rw [← Rat.num_div_den a, ← Rat.num_div_den b]
  rw [qmul, Rat.divInt_eq_div, div_mul_div_comm]
  push_cast
  ring_nf

theorem qdiv_eq (a b : ℚ) : qdiv a b = a / b := by
  rcases eq_or_ne b 0 with rfl | hb0
  · simp [qdiv, Rat.divInt_eq_div]
  · have ha : ((a.den : ℚ)) ≠ 0 := Nat.cast_ne_zero.mpr a.den_nz
    have hbd : ((b.den : ℚ)) ≠ 0 := Nat.cast_ne_zero.mpr b.den_nz
    have hbn : ((b.num : ℚ)) ≠ 0 := by
      exact_mod_cast Rat.num_ne_zero.mpr hb0
    conv_rhs => rw [← Rat.num_div_den a, ← Rat.num_div_den b]
    rw [qdiv, Rat.divInt_eq_div]
    push_cast
    field_simp

theorem qabs_eq (a : ℚ) : qabs a = |a| := by
  rw [qabs]
  by_cases h : a < 0
  · rw [if_pos h, abs_of_neg h]
    exact (Rat.neg_def a).symm
  · rw [if_neg h, abs_of_nonneg (not_lt.mp h)]

theorem qmin_eq (a b : ℚ) : qmin a b = min a b := by
  rw [qmin, min_def]

theorem qmax_eq (a b : ℚ) : qmax a b = max a b := by
  rw [qmax, max_def]
  rcases le_total a b with h | h
  · rcases eq_or_lt_of_le h with rfl | hlt
    · simp
    · rw [if_pos h, if_neg (not_le.mpr hlt)]
  · rw [if_pos h]
    rcases eq_or_lt_of_le h with rfl | hlt
    · simp
    · rw [if_neg (not_le.mpr hlt)]

theorem insertStable_length (le : α → α → Bool) (x : α) (l : List α) :
    (insertStable le x l).length = l.length + 1 := by
  induction l with
  | nil => rfl
  | cons y ys ih =>
    unfold insertStable
    by_cases h : le y x = true
    · simp [h, ih]
    · simp [h]

theorem stableSort_foldl_length (le : α → α → Bool) (l acc : List α) :
    (l.foldl (fun acc x => insertStable le x acc) acc).length
      = acc.length + l.length := by
  induction l generalizing acc with
  | nil => simp
  | cons x xs ih =>
    simp only [List.foldl_cons, ih, insertStable_length, List.length_cons]
    omega

theorem stableSort_length (le : α → α → Bool) (l : List α) :
    (stableSort le l).length = l.length := by
  simp [stableSort, stableSort_foldl_length]

/-! ## General cache lemmas -/

theorem cacheSet_length_le [DecidableEq α] (maxItems : ℕ) (c : List (α × β))
    (k : α) (v : β) : (cacheSet maxItems c k v).length ≤ maxItems := by
  simp only [cacheSet, lruEvict, List.length_drop]
  omega

theorem lookup_eq_none_of_fresh [DecidableEq α] (c : List (α × β)) (k : α)
    (hfresh : ∀ p ∈ c, p.1 ≠ k) : c.lookup k = none := by
  induction c with
  | nil => rfl
  | cons p rest ih =>
    have hp : p.1 ≠ k := hfresh p (List.mem_cons_self p rest)
    have hbeq : (k == p.1) = false := beq_false_of_ne (Ne.symm hp)
    simp only [List.lookup, hbeq]
    exact ih fun q hq => hfresh q (List.mem_cons_of_mem p hq)

/-- Inserting a fresh key into a full cache evicts exactly the head (the
least-recently-used entry), leaves the other entries intact and in order,
and appends the new entry at the most-recently-used end. -/
theorem cacheSet_full_fresh [DecidableEq α] (maxItems : ℕ) (c : List (α × β))
    (k : α) (v : β) (hmax : 0 < maxItems) (hlen : c.length = maxItems)
    (hfresh : ∀ p ∈ c, p.1 ≠ k) :
    cacheSet maxItems c k v = c.tail ++ [(k, v)] := by
  have hfilter : (c.filter fun p => p.1 ≠ k) = c :=
    List.filter_eq_self.mpr (by
      intro a ha
      simpa using hfresh a ha)
  rw [cacheSet, hfilter, lruEvict]
  have hdrop : (c ++ [(k, v)]).length - maxItems = 1 := by
    simp [hlen]
  rw [hdrop, List.drop_append_of_le_length (by omega), List.drop_one]

/-- Re-inserting a key already present in a within-capacity cache evicts
nothing: the key moves to the most-recently-used end with the new value. -/
theorem cacheSet_reinsert [DecidableEq α] (maxItems : ℕ) (c : List (α × β))
    (k : α) (v : β) (hle : c.length ≤ maxItems) (hmem : k ∈ c.map Prod.fst) :
    cacheSet maxItems c k v = (c.filter fun p => p.1 ≠ k) ++ [(k, v)] := by
  obtain ⟨p, hp, hpk⟩ := List.mem_map.mp hmem
  have hlt : (c.filter fun p => p.1 ≠ k).length < c.length :=
    List.length_filter_lt_length_iff_exists.mpr ⟨p, hp, by simp [hpk]⟩
  rw [cacheSet, lruEvict]
  have hdrop : ((c.filter fun p => p.1 ≠ k) ++ [(k, v)]).length - maxItems = 0 := by
    simp only [List.length_append, List.length_singleton]
    omega
  rw [hdrop, List.drop_zero]

/-- The just-inserted entry — the most-recently-used one — is never the one
evicted. -/
theorem cacheSet_mem_inserted [DecidableEq α] (maxItems : ℕ) (c : List (α × β))
    (k : α) (v : β) (hmax : 0 < maxItems) : (k, v) ∈ cacheSet maxItems c k v := by
  rw [cacheSet, lruEvict]
  have hdrop : ((c.filter fun p => p.1 ≠ k) ++ [(k, v)]).length - maxItems
      ≤ (c.filter fun p => p.1 ≠ k).length := by
    simp only [List.length_append, List.length_singleton]
    omega
  rw [List.drop_append_of_le_length hdrop]
  exact List.mem_append.mpr (Or.inr (List.mem_singleton.mpr rfl))

/-- A `_cache_get` hit returns the stored value and moves the key to the
most-recently-used end. -/
theorem cacheGet_hit [DecidableEq α] (c : List (α × β)) (k : α) (v : β)
    (hlookup : c.lookup k = some v) :
    cacheGet c k = (some v, (c.filter fun p => p.1 ≠ k) ++ [(k, v)]) := by
  simp [cacheGet, hlookup]

/-! ## Claim C2 — LRU cache tiers -/

/-- C2 counterexample: a read does NOT refresh recency in the image cache.
The worker reads the image cache with a plain `dict.get`
(`cached_entry = self.image_cache.get(image_hash)`), which does not reorder
the `OrderedDict`; with the 8-entry cache full, reading `"k1"` (making it
the most recently *used* in the claim's sense) and then inserting a fresh
key evicts precisely `"k1"`. -/
theorem c2_read_refresh_counterexample :
    (imgC8.lookup "k1").isSome = true
      ∧ (storeImageCache imgC8 "k9" (some []) none).map Prod.fst
          = ["k2", "k3", "k4", "k5", "k6", "k7", "k8", "k9"] := by
  decide

/-- C2 (amended): every tier keeps at most its capacity (8 / 16 / 500)
after an insertion; inserting a fresh key into a full cache evicts exactly
the least-recently-used (head) entry, leaving the others intact, and the
just-inserted most-recently-used entry is never evicted; a re-insert
refreshes a key's recency without evicting; a read refreshes recency only
in the per-string tier (`_cache_get`) — image-cache and OCR-cache reads are
plain `dict.get`s that leave the order unchanged. -/
theorem c2_lru_amended :
    (∀ (c : List (String × ImageCacheEntry)) h o t,
        (storeImageCache c h o t).length ≤ 8)
    ∧ (∀ (c : List (List FpEntry × List TranslationResult)) sig ts,
        (storeTranslationSignature c sig ts).length ≤ 16)
    ∧ (∀ (c : List (TranslationCacheKey × String)) k v,
        (translatorCacheSet c k v).length ≤ 500)
    ∧ (∀ (c : List (String × ImageCacheEntry)) h o t,
        c.length = 8 → (∀ p ∈ c, p.1 ≠ h) →
        storeImageCache c h o t = c.tail ++ [(h, mergedImageEntry c h o t)])
    ∧ (∀ (c : List (List FpEntry × List TranslationResult)) sig ts,
        c.length = 16 → (∀ p ∈ c, p.1 ≠ sig) →
        storeTranslationSignature c sig ts = c.tail ++ [(sig, ts)])
    ∧ (∀ (α β : Type) (inst : DecidableEq α) (maxItems : ℕ) (c : List (α × β))
        (k : α) (v : β), 0 < maxItems → c.length = maxItems →
        (∀ p ∈ c, p.1 ≠ k) →
        @cacheSet α β inst maxItems c k v = c.tail ++ [(k, v)])
    ∧ (∀ (α β : Type) (inst : DecidableEq α) (maxItems : ℕ) (c : List (α × β))
        (k : α) (v : β), c.length ≤ maxItems → k ∈ c.map Prod.fst →
        @cacheSet α β inst maxItems c k v = (c.filter fun p => p.1 ≠ k) ++ [(k, v)])
    ∧ (∀ (α β : Type) (inst : DecidableEq α) (maxItems : ℕ) (c : List (α × β))
        (k : α) (v : β), 0 < maxItems → (k, v) ∈ @cacheSet α β inst maxItems c k v)
    ∧ (∀ (c : List (TranslationCacheKey × String)) k v, c.lookup k = some v →
        translatorCacheGet c k = (some v, (c.filter fun p => p.1 ≠ k) ++ [(k, v)])) := by
  refine ⟨fun c h o t => cacheSet_length_le _ _ _ _,
    fun c sig ts => cacheSet_length_le _ _ _ _,
    fun c k v => cacheSet_length_le _ _ _ _,
    fun c h o t hlen hfresh =>
      cacheSet_full_fresh _ _ _ _ (by decide) hlen hfresh,
    fun c sig ts hlen hfresh =>
      cacheSet_full_fresh _ _ _ _ (by decide) hlen hfresh,
    fun α β inst maxItems c k v hmax hlen hfresh =>
      cacheSet_full_fresh _ _ _ _ hmax hlen hfresh,
    fun α β inst maxItems c k v hle hmem => cacheSet_reinsert _ _ _ _ hle hmem,
    fun α β inst maxItems c k v hmax => cacheSet_mem_inserted _ _ _ _ hmax,
    fun c k v hlookup => cacheGet_hit _ _ _ hlookup⟩

/-- C2 witness: the amended theorem applied at the full 8-entry image
cache, the full 16-entry OCR cache, a small per-string cache, and small
generic caches. -/
theorem c2_lru_amended_witness :
    (storeImageCache imgC8 "k9" (some []) none
        = imgC8.tail ++ [("k9", mergedImageEntry imgC8 "k9" (some []) none)])
    ∧ (storeTranslationSignature ocrC16 [⟨99, 0, 0, 0, "z"⟩] [wkTr]
        = ocrC16.tail ++ [([⟨99, 0, 0, 0, "z"⟩], [wkTr])])
    ∧ ((translatorCacheSet [(⟨"m", "hi", "a", "English"⟩, "Hello")]
          ⟨"m", "yo", "a", "English"⟩ "Hey").length ≤ 500)
    ∧ (cacheSet 2 [("a", 1), ("b", 2)] "c" 3
        = [("a", 1), ("b", 2)].tail ++ [("c", (3 : ℤ))])
    ∧ (cacheSet 2 [("a", 1), ("b", 2)] "a" 9
        = ([("a", 1), ("b", 2)].filter fun p => p.1 ≠ "a") ++ [("a", (9 : ℤ))])
    ∧ (("c", (3 : ℤ)) ∈ cacheSet 2 [("a", 1), ("b", 2)] "c" 3)
    ∧ (translatorCacheGet [(⟨"m", "hi", "a", "English"⟩, "Hello")]
          ⟨"m", "hi", "a", "English"⟩
        = (some "Hello", [(⟨"m", "hi", "a", "English"⟩, "Hello")].filter
            (fun p => p.1 ≠ ⟨"m", "hi", "a", "English"⟩) ++
            [(⟨"m", "hi", "a", "English"⟩, "Hello")])) :=
  ⟨c2_lru_amended.2.2.2.1 imgC8 "k9" (some []) none (by decide) (by decide),
   c2_lru_amended.2.2.2.2.1 ocrC16 [⟨99, 0, 0, 0, "z"⟩] [wkTr] (by decide) (by decide),
   c2_lru_amended.2.2.1 _ _ _,
   c2_lru_amended.2.2.2.2.2.1 String ℤ inferInstance 2 [("a", 1), ("b", 2)] "c" 3
     (by decide) (by decide) (by decide),
   c2_lru_amended.2.2.2.2.2.2.1 String ℤ inferInstance 2 [("a", 1), ("b", 2)] "a" 9
     (by decide) (by decide),
   c2_lru_amended.2.2.2.2.2.2.2.1 String ℤ inferInstance 2 [("a", 1), ("b", 2)] "c" 3
     (by decide),
   c2_lru_amended.2.2.2.2.2.2.2.2 [(⟨"m", "hi", "a", "English"⟩, "Hello")]
     ⟨"m", "hi", "a", "English"⟩ "Hello" (by decide)⟩

/-! ## Claim C4 — worker-loop sleep scheduling -/

/-- C4 counterexample: with a configured interval of 2000 ms and 500 ms of
processing, the claim predicts an idle sleep of 2000 − 500 = 1500 ms; the
loop in `translation_workers.py` sleeps `1000 - 500 = 500` ms because it
hardcodes `target_interval = 1000` and never consults the configured
interval.  Moreover with processing time 1200 ≥ the interval the sleep is
1 ms, not 0. -/
theorem c4_sleep_counterexample :
    runSleepMs 2000 500 = 500 ∧ runSleepMs 2000 500 ≠ 2000 - 500
      ∧ runSleepMs 2000 1200 = 1 := by
  decide

/-- C4 (amended): the `translation_workers.py` loop sleeps
`1000 − elapsed` ms regardless of the configured interval (its sleep is
independent of `interval`), with a minimal 1 ms sleep once processing
reaches 1000 ms; the older `workers.py` loop sleeps `interval − elapsed`
(as `remaining // 100` ticks of 100 ms plus `remaining % 100`) and a flat
100 ms when processing meets or exceeds the interval.  Neither sleep is
ever negative or zero. -/
theorem c4_sleep_amended :
    (∀ interval elapsed : ℤ, 0 < runSleepMs interval elapsed
        ∧ runSleepMs interval elapsed = runSleepMs 0 elapsed)
    ∧ (∀ interval elapsed : ℤ, elapsed < 1000 →
        runSleepMs interval elapsed = 1000 - elapsed)
    ∧ (∀ interval elapsed : ℤ, 1000 ≤ elapsed → runSleepMs interval elapsed = 1)
    ∧ (∀ interval elapsed : ℤ, 0 < runSleepMsApi interval elapsed)
    ∧ (∀ interval elapsed : ℤ, elapsed < interval →
        runSleepMsApi interval elapsed = interval - elapsed)
    ∧ (∀ interval elapsed : ℤ, interval ≤ elapsed →
        runSleepMsApi interval elapsed = 100) := by
  have hdm : ∀ r : ℤ, 100 * (r / 100) + r % 100 = r := fun r =>
    Int.ediv_add_emod r 100
  refine ⟨fun i e => ⟨?_, ?_⟩, fun i e he => ?_, fun i e he => ?_,
    fun i e => ?_, fun i e he => ?_, fun i e he => ?_⟩ <;>
    simp only [runSleepMs, runSleepMsApi]
  · split <;> omega
  · split <;> omega
  · split <;> omega
  · have := hdm (i - e)
    split <;> omega
  · have := hdm (i - e)
    split <;> omega
  · split <;> omega

/-- C4 witness: the amended theorem applied at interval 2000 ms with
500 ms and 1500 ms of processing for the older loop, and 500/1200 ms for
the current loop. -/
theorem c4_sleep_amended_witness :
    runSleepMs 2000 500 = 1000 - 500 ∧ runSleepMs 2000 1200 = 1
      ∧ runSleepMsApi 2000 500 = 2000 - 500 ∧ runSleepMsApi 2000 2300 = 100 :=
  ⟨c4_sleep_amended.2.1 2000 500 (by decide),
   c4_sleep_amended.2.2.1 2000 1200 (by decide),
   c4_sleep_amended.2.2.2.2.1 2000 500 (by decide),
   c4_sleep_amended.2.2.2.2.2 2000 2300 (by decide)⟩

/-! ## Worker-cycle emission lemmas -/

theorem emitIfChanged_snd_some (s : WorkerState) (ts ts' : List TranslationResult)
    (h : (emitIfChanged s ts).2 = some ts') :
    some (fingerprintTranslations ts') ≠ s.lastTranslationSignature := by
  unfold emitIfChanged at h
  by_cases hs : some (fingerprintTranslations ts) = s.lastTranslationSignature
  · rw [if_pos hs] at h
    exact Option.noConfusion h
  · rw [if_neg hs] at h
    have h2 : some ts = some ts' := h
    injection h2 with h3
    rw [← h3]
    exact hs

theorem translateStage_snd_some (s : WorkerState) (h : String)
    (regs : List OcrRegion) (translate : List OcrRegion → List TranslationResult)
    (ts' : List TranslationResult)
    (hemit : (translateStage s h regs translate).2 = some ts') :
    some (fingerprintTranslations ts') ≠ s.lastTranslationSignature := by
  unfold translateStage at hemit
  repeat' split at hemit
  all_goals
    first
      | exact Option.noConfusion hemit
      | (have h2 := emitIfChanged_snd_some _ _ _ hemit; exact h2)

theorem ocrStage_snd_some (s : WorkerState) (h : String) (ocr : OcrOutcome)
    (translate : List OcrRegion → List TranslationResult)
    (ts' : List TranslationResult)
    (hemit : (ocrStage s h ocr translate).2 = some ts') :
    some (fingerprintTranslations ts') ≠ s.lastTranslationSignature := by
  unfold ocrStage at hemit
  repeat' split at hemit
  all_goals
    first
      | exact Option.noConfusion hemit
      | (have h2 := translateStage_snd_some _ _ _ _ _ hemit; exact h2)

theorem cycleFromHash_snd_some (s : WorkerState) (h : String) (ocr : OcrOutcome)
    (translate : List OcrRegion → List TranslationResult)
    (ts' : List TranslationResult)
    (hemit : (cycleFromHash s h ocr translate).2 = some ts') :
    some (fingerprintTranslations ts') ≠ s.lastTranslationSignature := by
  unfold cycleFromHash at hemit
  repeat' split at hemit
  all_goals
    first
      | exact Option.noConfusion hemit
      | (have h2 := emitIfChanged_snd_some _ _ _ hemit; exact h2)
      | (have h2 := translateStage_snd_some _ _ _ _ _ hemit; exact h2)
      | (have h2 := ocrStage_snd_some _ _ _ _ _ hemit; exact h2)

/-! ## Claim C1 — suppression of duplicate render notifications -/

/-- C1 counterexample: the comparison is against the last *recorded*
signature, not the last *emitted* one.  Cycle 1 emits `[wkTr]`; cycle 2
sees a new image with no OCR text and overwrites
`_last_translation_signature` with the `("__empty__",)` marker without
emitting; cycle 3 sees the first image again and emits `[wkTr]` a second
time, although its fingerprint equals the fingerprint of the previously
emitted set. -/
theorem c1_reemission_counterexample :
    wkCycle1.2 = some [wkTr]
      ∧ wkCycle2.2 = none
      ∧ wkCycle2.1.lastTranslationSignature = some .emptyMarker
      ∧ wkCycle3.2 = some [wkTr] := by
  decide

/-- C1 (amended): whenever a worker cycle emits a `translation_ready`
notification, the fingerprint of the emitted set differs from the signature
recorded in `_last_translation_signature` at the start of the cycle (the
fingerprint of the previously emitted set, unless an empty-OCR cycle
overwrote it with the `("__empty__",)` marker); a set whose fingerprint
equals the recorded signature is suppressed on the image-cache-hit path,
the OCR-cache path, and the fresh-OCR-and-translate path alike. -/
theorem c1_emission_has_new_signature :
    (∀ (s : WorkerState) (h : String) (ocr : OcrOutcome)
        (translate : List OcrRegion → List TranslationResult)
        (ts : List TranslationResult),
        (cycleFromHash s h ocr translate).2 = some ts →
        some (fingerprintTranslations ts) ≠ s.lastTranslationSignature)
    ∧ (∀ (s : WorkerState) (margin : ℤ) (offset : ℤ × ℤ) (geoms : List QRect)
        (capture : Option Image) (pre : Image → Image) (hashOf : Image → String)
        (ocrOf : Image → OcrOutcome)
        (translate : List OcrRegion → List TranslationResult)
        (ts : List TranslationResult),
        (cycleFull s margin offset geoms capture pre hashOf ocrOf translate).2
          = some ts →
        some (fingerprintTranslations ts) ≠ s.lastTranslationSignature) := by
  refine ⟨fun s h ocr translate ts hemit =>
    cycleFromHash_snd_some s h ocr translate ts hemit, ?_⟩
  intro s margin offset geoms capture pre hashOf ocrOf translate ts hemit
  match capture with
  | none => exact Option.noConfusion hemit
  | some img => exact cycleFromHash_snd_some _ _ _ _ _ hemit

/-- C1 witness: the amended theorem applied to the first concrete cycle,
which emits `[wkTr]` from the blank initial state. -/
theorem c1_emission_has_new_signature_witness :
    some (fingerprintTranslations [wkTr]) ≠ wkS0.lastTranslationSignature :=
  c1_emission_has_new_signature.1 wkS0 "h1" (.ok [wkRaw]) wkTranslate [wkTr]
    (by decide)

/-! ## Claim C3 — state updates on failed cycles -/

/-- C3 counterexample: a cycle whose OCR step raises still records the
change-detection hash (`self.last_hashes["full"] = image_hash` runs before
OCR), so presenting the identical frame on the next cycle returns
immediately — OCR and translation are NOT re-run, even though OCR would now
succeed and the translator would return results. -/
theorem c3_failed_cycle_counterexample :
    (cycleFromHash wkS0 "h1" .err wkTranslate).2 = none
      ∧ (cycleFromHash wkS0 "h1" .err wkTranslate).1.lastHashFull = some "h1"
      ∧ wkS0.lastHashFull = none
      ∧ cycleFromHash (cycleFromHash wkS0 "h1" .err wkTranslate).1 "h1"
          (.ok [wkRaw]) wkTranslate
          = ((cycleFromHash wkS0 "h1" .err wkTranslate).1, none) := by
  decide

/-- C3 (amended): a failed capture updates nothing.  When OCR raises, no
cache tier is updated, but the change-detection hash has already been
recorded, so an identical frame on the next cycle is skipped rather than
fully re-processed.  When translation yields no results, the hash and the
image cache's OCR entry have already been updated (and nothing else), so an
identical frame is likewise skipped; no translations are stored in any
tier on any failed path. -/
theorem c3_failed_step_state :
    (∀ (s : WorkerState) (margin : ℤ) (offset : ℤ × ℤ) (geoms : List QRect)
        (pre : Image → Image) (hashOf : Image → String)
        (ocrOf : Image → OcrOutcome)
        (translate : List OcrRegion → List TranslationResult),
        cycleFull s margin offset geoms none pre hashOf ocrOf translate = (s, none))
    ∧ (∀ (s : WorkerState) (h : String)
        (translate : List OcrRegion → List TranslationResult),
        s.imageCache.lookup h = none → s.lastHashFull ≠ some h →
        cycleFromHash s h .err translate
          = ({s with lastHashFull := some h}, none))
    ∧ (∀ (s : WorkerState) (h : String) (raws : List RawOcr)
        (translate : List OcrRegion → List TranslationResult),
        s.imageCache.lookup h = none → s.lastHashFull ≠ some h →
        raws ≠ [] → convertRawOcr raws ≠ [] →
        (s.ocrTranslationCache.lookup
          (fingerprintOcrRegions (convertRawOcr raws))).getD [] = [] →
        translate (convertRawOcr raws) = [] →
        cycleFromHash s h (.ok raws) translate
          = ({s with
              lastHashFull := some h,
              imageCache :=
                storeImageCache s.imageCache h (some (convertRawOcr raws)) none},
             none)) := by
  refine ⟨fun s margin offset geoms pre hashOf ocrOf translate => rfl, ?_, ?_⟩
  · intro s h translate hlookup hhash
    have hh' : ¬(some h = s.lastHashFull) := fun heq => hhash heq.symm
    simp only [cycleFromHash, hlookup, Option.none_bind, if_neg hh', ocrStage]
  · intro s h raws translate hlookup hhash hraws hregs hcache htr
    have hh' : ¬(some h = s.lastHashFull) := fun heq => hhash heq.symm
    simp only [cycleFromHash, hlookup, Option.none_bind, if_neg hh', ocrStage,
      if_neg hraws, if_neg hregs, translateStage]
    rcases hc : List.lookup (fingerprintOcrRegions (convertRawOcr raws))
        s.ocrTranslationCache with _ | cl
    · simp only [htr]
    · rcases cl with _ | ⟨c0, cRest⟩
      · simp only [htr]
      · rw [hc] at hcache
        simp at hcache

/-- C3 witness: the amended theorem applied at the blank initial state —
a failed capture, a raising OCR pass on hash `"h1"`, and an
empty-translation cycle on the concrete raw OCR hit. -/
theorem c3_failed_step_state_witness :
    cycleFull wkS0 15 (0, 0) [] none (fun i => i) (fun _ => "h")
        (fun _ => .err) wkTranslate = (wkS0, none)
      ∧ cycleFromHash wkS0 "h1" .err wkTranslate
          = ({wkS0 with lastHashFull := some "h1"}, none)
      ∧ cycleFromHash wkS0 "h1" (.ok [wkRaw]) wkTranslateFail
          = ({wkS0 with
              lastHashFull := some "h1",
              imageCache :=
                storeImageCache wkS0.imageCache "h1"
                  (some (convertRawOcr [wkRaw])) none},
             none) :=
  ⟨c3_failed_step_state.1 wkS0 15 (0, 0) [] (fun i => i) (fun _ => "h")
      (fun _ => .err) wkTranslate,
   c3_failed_step_state.2.1 wkS0 "h1" wkTranslate (by decide) (by decide),
   c3_failed_step_state.2.2 wkS0 "h1" [wkRaw] wkTranslateFail (by decide)
     (by decide) (by decide) (by decide) (by decide) (by decide)⟩

/-! ## Claim C8 — redaction geometry, opacity and ordering -/

/-- C8: with margin 15 and no capture offset, the annotation geometry
`(100, 100, 80, 20)` is painted as the rectangle `(85, 85, 110, 50)` —
expanded by the margin on all four sides; every pixel inside a painted
rectangle becomes solid opaque black; and with live geometries the cycle
hashes (change detection) and OCRs exactly the preprocessed *redacted*
image, i.e. redaction happens before fingerprinting and before OCR. -/
theorem c8_redaction :
    redactedRect 15 (0, 0) ⟨100, 100, 80, 20⟩ = ⟨85, 85, 110, 50⟩
    ∧ (∀ (margin : ℤ) (offset : ℤ × ℤ) (geoms : List QRect) (img : Image)
        (px py : ℤ),
        (∃ g ∈ geoms, (redactedRect margin offset g).containsPt px py) →
        redactImage margin offset geoms img px py = blackOpaque)
    ∧ (∀ (s : WorkerState) (margin : ℤ) (offset : ℤ × ℤ) (geoms : List QRect)
        (img : Image) (pre : Image → Image) (hashOf : Image → String)
        (ocrOf : Image → OcrOutcome)
        (translate : List OcrRegion → List TranslationResult), geoms ≠ [] →
        cycleFull s margin offset geoms (some img) pre hashOf ocrOf translate
          = cycleFromHash s (hashOf (pre (redactImage margin offset geoms img)))
              (ocrOf (pre (redactImage margin offset geoms img))) translate) := by
  refine ⟨by decide, ?_, ?_⟩
  · intro margin offset geoms img px py hex
    obtain ⟨g, hg, hpt⟩ := hex
    have hne : geoms ≠ [] := by
      intro hnil
      rw [hnil] at hg
      exact List.not_mem_nil g hg
    unfold redactImage
    rw [if_neg hne, if_pos (List.any_eq_true.mpr ⟨g, hg, hpt⟩)]
  · intro s margin offset geoms img pre hashOf ocrOf translate hne
    unfold cycleFull
    dsimp only
    rw [if_neg hne]

/-- C8 witness: the opacity and ordering conjuncts applied at the concrete
geometry `(100, 100, 80, 20)`, margin 15, the constant grey raster and
concrete collaborator oracles. -/
theorem c8_redaction_witness :
    redactImage 15 (0, 0) [⟨100, 100, 80, 20⟩] wkImg 85 85 = blackOpaque
      ∧ cycleFull wkS0 15 (0, 0) [⟨100, 100, 80, 20⟩] (some wkImg) (fun i => i)
          (fun _ => "h") (fun _ => .err) wkTranslate
        = cycleFromHash wkS0
            ((fun (_ : Image) => "h")
              ((fun (i : Image) => i) (redactImage 15 (0, 0) [⟨100, 100, 80, 20⟩] wkImg)))
            ((fun (_ : Image) => OcrOutcome.err)
              ((fun (i : Image) => i) (redactImage 15 (0, 0) [⟨100, 100, 80, 20⟩] wkImg)))
            wkTranslate :=
  ⟨c8_redaction.2.1 15 (0, 0) [⟨100, 100, 80, 20⟩] wkImg 85 85 (by decide),
   c8_redaction.2.2 wkS0 15 (0, 0) [⟨100, 100, 80, 20⟩] wkImg (fun i => i)
     (fun _ => "h") (fun _ => .err) wkTranslate (by decide)⟩


/-! ## Overlay lemmas: merge sizes, matched counts, the cap loop -/

theorem mergeInto_length_le (l : List TranslationResult) (r : TranslationResult) :
    (mergeInto l r).length ≤ l.length + 1 := by
  induction l with
  | nil => simp [mergeInto]
  | cons e rest ih =>
    unfold mergeInto
    split
    · simp
    · split
      · simp
      · simpa using Nat.succ_le_succ ih

theorem mergeResults_foldl_length_le (l : List TranslationResult)
    (init : List TranslationResult) :
    (l.foldl mergeInto init).length ≤ init.length + l.length := by
  induction l generalizing init with
  | nil => simp
  | cons r rest ih =>
    calc (rest.foldl mergeInto (mergeInto init r)).length
        ≤ (mergeInto init r).length + rest.length := ih _
      _ ≤ init.length + 1 + rest.length :=
          Nat.add_le_add_right (mergeInto_length_le _ _) _
      _ = init.length + (r :: rest).length := by
          simp only [List.length_cons]
          omega

theorem truncate50_length_le (ts : List TranslationResult) :
    (truncate50 ts).length ≤ 50 := by
  rw [truncate50]
  split
  · simp [List.length_take]
  · omega

theorem clusterInput_length_le (ts : List TranslationResult) :
    (clusterInput ts).length ≤ 50 := by
  have h1 := mergeResults_foldl_length_le (stableSort resultLe (truncate50 ts)) []
  have h2 := stableSort_length resultLe (truncate50 ts)
  have h3 := truncate50_length_le ts
  simp only [List.length_nil] at h1
  simp only [clusterInput, mergeResults]
  omega

theorem matchedFilter_map_false (B : List TranslationResult) :
    matchedFilter (B.map fun r => ⟨r, false⟩) = [] := by
  induction B with
  | nil => rfl
  | cons r rest ih => simpa [matchedFilter, List.filter] using ih

theorem set_matchedFilter_le (l : List Bubble) (i : ℕ) (b : Bubble) :
    (matchedFilter (l.set i b)).length ≤ (matchedFilter l).length + 1 := by
  induction l generalizing i with
  | nil => simp [matchedFilter]
  | cons x rest ih =>
    cases i with
    | zero =>
      simp only [List.set, matchedFilter, List.filter]
      cases hb : b.matched <;> cases hx : x.matched <;> simp [hb, hx] <;> omega
    | succ j =>
      simp only [List.set, matchedFilter, List.filter]
      cases hx : x.matched
      · simpa [matchedFilter] using ih j
      · simpa [matchedFilter] using Nat.succ_le_succ (ih j)

theorem bestOrCreate_matchedFilter_le (bubbles : List Bubble)
    (res : TranslationResult) (acc : ScanAcc) :
    (matchedFilter (bestOrCreate bubbles res acc)).length
      ≤ (matchedFilter bubbles).length + 1 := by
  unfold bestOrCreate
  split
  · split
    · split
      · exact set_matchedFilter_le _ _ _
      · omega
    · simp [matchedFilter, List.filter_append]
  · simp [matchedFilter, List.filter_append]

theorem processResult_matchedFilter_le (bubbles : List Bubble)
    (res : TranslationResult) :
    (matchedFilter (processResult bubbles res)).length
      ≤ (matchedFilter bubbles).length + 1 := by
  unfold processResult
  split
  · split
    · split
      · exact set_matchedFilter_le _ _ _
      · omega
    · exact bestOrCreate_matchedFilter_le _ _ _
  · exact bestOrCreate_matchedFilter_le _ _ _

theorem foldl_processResult_matchedFilter_le (rs : List TranslationResult)
    (init : List Bubble) :
    (matchedFilter (rs.foldl processResult init)).length
      ≤ (matchedFilter init).length + rs.length := by
  induction rs generalizing init with
  | nil => simp
  | cons r rest ih =>
    calc (matchedFilter ((r :: rest).foldl processResult init)).length
        = (matchedFilter (rest.foldl processResult (processResult init r))).length := rfl
      _ ≤ (matchedFilter (processResult init r)).length + rest.length := ih _
      _ ≤ (matchedFilter init).length + 1 + rest.length :=
          Nat.add_le_add_right (processResult_matchedFilter_le _ _) _
      _ = (matchedFilter init).length + (r :: rest).length := by
          simp only [List.length_cons]
          omega

theorem matchPhase_matchedFilter_le (B ts : List TranslationResult) :
    (matchedFilter (matchPhase B ts)).length ≤ 50 := by
  have h1 := foldl_processResult_matchedFilter_le (clusterInput ts)
    (B.map fun r => ⟨r, false⟩)
  have h2 := clusterInput_length_le ts
  rw [matchedFilter_map_false] at h1
  simp only [List.length_nil] at h1
  simp only [matchPhase]
  omega

theorem bubble_filter_length_add (l : List Bubble) :
    (matchedFilter l).length + (unmatchedFilter l).length = l.length := by
  simpa [matchedFilter, unmatchedFilter] using
    (List.length_eq_length_filter_add (fun b : Bubble => b.matched)).symm

theorem capClose_sublist (l : List Bubble) (n : ℕ) : List.Sublist (capClose n l) l := by
  induction l generalizing n with
  | nil => cases n <;> simp [capClose]
  | cons b rest ih =>
    cases n with
    | zero => simp [capClose]
    | succ m =>
      rw [capClose]
      split
      · exact List.Sublist.cons₂ b (ih (m + 1))
      · exact List.Sublist.cons b (ih m)

theorem capClose_matchedFilter (l : List Bubble) (n : ℕ) :
    matchedFilter (capClose n l) = matchedFilter l := by
  induction l generalizing n with
  | nil => cases n <;> rfl
  | cons b rest ih =>
    cases n with
    | zero => rfl
    | succ m =>
      rw [capClose]
      split
      · next hb =>
        simp only [matchedFilter, List.filter, hb]
        simpa [matchedFilter] using ih (m + 1)
      · next hb =>
        have hb' : b.matched = false := by
          cases h : b.matched
          · rfl
          · exact absurd h hb
        simp only [matchedFilter, List.filter, hb']
        simpa [matchedFilter] using ih m

theorem capClose_unmatchedFilter (l : List Bubble) (n : ℕ)
    (h : n ≤ (unmatchedFilter l).length) :
    unmatchedFilter (capClose n l) = (unmatchedFilter l).drop n := by
  induction l generalizing n with
  | nil => cases n <;> rfl
  | cons b rest ih =>
    cases n with
    | zero => rfl
    | succ m =>
      rw [capClose]
      split
      · next hb =>
        have hu : unmatchedFilter (b :: rest) = unmatchedFilter rest := by
          simp [unmatchedFilter, List.filter, hb]
        rw [hu] at h ⊢
        have : unmatchedFilter (b :: capClose (m + 1) rest)
            = unmatchedFilter (capClose (m + 1) rest) := by
          simp [unmatchedFilter, List.filter, hb]
        rw [this]
        exact ih (m + 1) h
      · next hb =>
        have hb' : b.matched = false := by
          cases h' : b.matched
          · rfl
          · exact absurd h' hb
        have hu : unmatchedFilter (b :: rest) = b :: unmatchedFilter rest := by
          simp [unmatchedFilter, List.filter, hb']
        rw [hu] at h ⊢
        rw [List.drop_succ_cons]
        exact ih m (Nat.le_of_succ_le_succ h)

theorem capClose_length (l : List Bubble) (n : ℕ)
    (h : n ≤ (unmatchedFilter l).length) :
    (capClose n l).length = l.length - n := by
  have h1 := bubble_filter_length_add (capClose n l)
  have h2 := bubble_filter_length_add l
  have h3 := capClose_matchedFilter l n
  have h4 := capClose_unmatchedFilter l n h
  have h5 : (unmatchedFilter (capClose n l)).length
      = (unmatchedFilter l).length - n := by
    rw [h4, List.length_drop]
  rw [h3] at h1
  omega

/-! ## Claim C5 — the 50-annotation population cap -/

/-- C5: when the bubble list after the match-or-create phase exceeds the
50-bubble cap, the cap closes exactly the excess number of the oldest
bubbles not matched or created this cycle: the surviving list has exactly
50 live bubbles, is a sublist of the over-cap list, keeps every matched or
created bubble, and the surviving unmatched bubbles are exactly the
unmatched ones with the oldest `length − 50` of them removed. -/
theorem c5_population_cap (B ts : List TranslationResult) (hne : ts ≠ [])
    (hover : 50 < (matchPhase B ts).length) :
    (capStep (matchPhase B ts)).length = 50
    ∧ List.Sublist (capStep (matchPhase B ts)) (matchPhase B ts)
    ∧ matchedFilter (capStep (matchPhase B ts)) = matchedFilter (matchPhase B ts)
    ∧ unmatchedFilter (capStep (matchPhase B ts))
        = (unmatchedFilter (matchPhase B ts)).drop ((matchPhase B ts).length - 50)
    ∧ updateTranslations B ts = (capStep (matchPhase B ts)).map Bubble.result := by
  have hm := matchPhase_matchedFilter_le B ts
  have hsum := bubble_filter_length_add (matchPhase B ts)
  have hn : (matchPhase B ts).length - 50
      ≤ (unmatchedFilter (matchPhase B ts)).length := by omega
  have hcap : capStep (matchPhase B ts)
      = capClose ((matchPhase B ts).length - 50) (matchPhase B ts) := by
    simp only [capStep, maxBubbles]
    rw [if_pos hover]
  refine ⟨?_, ?_, ?_, ?_, ?_⟩
  · rw [hcap, capClose_length _ _ hn]
    omega
  · rw [hcap]
    exact capClose_sublist _ _
  · rw [hcap]
    exact capClose_matchedFilter _ _
  · rw [hcap]
    exact capClose_unmatchedFilter _ _ hn
  · cases ts with
    | nil => exact absurd rfl hne
    | cons a l => rfl

set_option maxRecDepth 400000 in
/-- C5 witness: 50 far-apart live annotations plus one brand-new result
give 51 bubbles after matching; the cap theorem applied there shows the
count is restored to exactly 50. -/
theorem c5_population_cap_witness :
    (50 < (matchPhase ovB50 [ovNew]).length)
      ∧ (capStep (matchPhase ovB50 [ovNew])).length = 50 :=
  ⟨by decide, (c5_population_cap ovB50 [ovNew] (by decide) (by decide)).1⟩

/-! ## Claim C6 — merging two adjacent same-line fragments -/

/-- C6: merging the input set `{("Hel",0,0,20,20), ("lo",22,0,20,20)}` (in
either arrival order, after the `(y, x)` sort) produces exactly the one
consolidated result `("Hel lo", 0, 0, 42, 20)`. -/
theorem c6_adjacent_fragments_merge :
    mergeResults (stableSort resultLe [frHel, frLo]) = [frMerged]
      ∧ mergeResults (stableSort resultLe [frLo, frHel]) = [frMerged]
      ∧ clusterInput [frHel, frLo] = [frMerged] := by
  decide

/-! ## Claim C10 — truncation of the input to 50 results -/

/-- C10: `update_translations` only ever sees the first 50 entries of its
input: the whole update is unchanged when the input is truncated to its
first 50 results before the call. -/
theorem c10_input_truncated_to_50 (B ts : List TranslationResult) :
    updateTranslations B ts = updateTranslations B (ts.take 50) := by
  have htr : truncate50 ts = ts.take 50 := by
    rw [truncate50]
    split
    · rfl
    · exact (List.take_of_length_le (by omega)).symm
  have htr2 : truncate50 (ts.take 50) = ts.take 50 := by
    rw [truncate50, if_neg]
    simp only [List.length_take, not_lt]
    omega
  have hemp : ts.isEmpty = (ts.take 50).isEmpty := by cases ts <;> rfl
  rw [updateTranslations, updateTranslations, ← hemp]
  by_cases h : ts.isEmpty = true
  · rw [if_pos h, if_pos h]
  · rw [if_neg h, if_neg h]
    simp only [matchPhase, clusterInput, htr, htr2]

/-! ## Bubble-scan lemmas (for C7) -/

theorem scanStep_bestScore_le (res : TranslationResult) (acc : ScanAcc) (i : ℕ)
    (b : Bubble) : acc.bestScore ≤ (scanStep res acc i b).bestScore := by
  unfold scanStep
  split
  · next h => exact le_of_lt h
  · exact le_refl _

theorem scanStep_bestScore_ge (res : TranslationResult) (acc : ScanAcc) (i : ℕ)
    (b : Bubble) : similarityScore b.result res ≤ (scanStep res acc i b).bestScore := by
  unfold scanStep
  split
  · exact le_refl _
  · next h => exact not_lt.mp h

theorem scanStep_bestIdx (res : TranslationResult) (acc : ScanAcc) (i : ℕ)
    (b : Bubble) : (scanStep res acc i b).bestIdx = acc.bestIdx
      ∨ (scanStep res acc i b).bestIdx = some i := by
  unfold scanStep
  split
  · exact Or.inr rfl
  · exact Or.inl rfl

theorem scanStep_appendIdx (res : TranslationResult) (acc : ScanAcc) (i : ℕ)
    (b : Bubble) : (scanStep res acc i b).appendIdx = acc.appendIdx
      ∨ (scanStep res acc i b).appendIdx = some i := by
  unfold scanStep
  split
  · split
    · exact Or.inr rfl
    · exact Or.inl rfl
  · split
    · exact Or.inr rfl
    · exact Or.inl rfl

theorem scanGo_bestScore_le (res : TranslationResult) (l : List Bubble) :
    ∀ (i : ℕ) (acc : ScanAcc), acc.bestScore ≤ (scanGo res l i acc).bestScore := by
  induction l with
  | nil => intro i acc; exact le_refl _
  | cons b rest ih =>
    intro i acc
    exact le_trans (scanStep_bestScore_le res acc i b) (ih (i + 1) _)

theorem scanGo_bestScore_ge (res : TranslationResult) (l : List Bubble)
    (b : Bubble) (hb : b ∈ l) :
    ∀ (i : ℕ) (acc : ScanAcc),
      similarityScore b.result res ≤ (scanGo res l i acc).bestScore := by
  induction l with
  | nil => exact absurd hb (List.not_mem_nil b)
  | cons x rest ih =>
    intro i acc
    rcases List.mem_cons.mp hb with rfl | hmem
    · exact le_trans (scanStep_bestScore_ge res acc i b) (scanGo_bestScore_le res rest (i + 1) _)
    · exact ih hmem (i + 1) _

theorem scanGo_bestIdx_lt (res : TranslationResult) (l : List Bubble) :
    ∀ (i : ℕ) (acc : ScanAcc), (∀ j, acc.bestIdx = some j → j < i) →
      ∀ j, (scanGo res l i acc).bestIdx = some j → j < i + l.length := by
  induction l with
  | nil =>
    intro i acc hacc j hj
    have := hacc j hj
    simpa using Nat.lt_of_lt_of_le this (Nat.le_refl i)
  | cons b rest ih =>
    intro i acc hacc j hj
    have hstep : ∀ j', (scanStep res acc i b).bestIdx = some j' → j' < i + 1 := by
      intro j' hj'
      rcases scanStep_bestIdx res acc i b with h | h
      · rw [h] at hj'
        exact Nat.lt_succ_of_lt (hacc j' hj')
      · rw [h] at hj'
        injection hj' with e
        omega
    have := ih (i + 1) _ hstep j hj
    simp only [List.length_cons]
    omega

theorem scanGo_appendIdx_lt (res : TranslationResult) (l : List Bubble) :
    ∀ (i : ℕ) (acc : ScanAcc), (∀ j, acc.appendIdx = some j → j < i) →
      ∀ j, (scanGo res l i acc).appendIdx = some j → j < i + l.length := by
  induction l with
  | nil =>
    intro i acc hacc j hj
    have := hacc j hj
    simpa using Nat.lt_of_lt_of_le this (Nat.le_refl i)
  | cons b rest ih =>
    intro i acc hacc j hj
    have hstep : ∀ j', (scanStep res acc i b).appendIdx = some j' → j' < i + 1 := by
      intro j' hj'
      rcases scanStep_appendIdx res acc i b with h | h
      · rw [h] at hj'
        exact Nat.lt_succ_of_lt (hacc j' hj')
      · rw [h] at hj'
        injection hj' with e
        omega
    have := ih (i + 1) _ hstep j hj
    simp only [List.length_cons]
    omega

theorem scanStep_none_score (res : TranslationResult) (acc : ScanAcc) (i : ℕ)
    (b : Bubble) (hacc : acc.bestIdx = none → acc.bestScore = 0) :
    (scanStep res acc i b).bestIdx = none → (scanStep res acc i b).bestScore = 0 := by
  unfold scanStep
  split
  · intro h
    exact Option.noConfusion h
  · intro h
    exact hacc h

theorem scanGo_none_score (res : TranslationResult) (l : List Bubble) :
    ∀ (i : ℕ) (acc : ScanAcc), (acc.bestIdx = none → acc.bestScore = 0) →
      (scanGo res l i acc).bestIdx = none → (scanGo res l i acc).bestScore = 0 := by
  induction l with
  | nil => intro i acc hacc h; exact hacc h
  | cons b rest ih =>
    intro i acc hacc h
    exact ih (i + 1) _ (scanStep_none_score res acc i b hacc) h

/-! ## Score lemmas (for C7) -/

theorem textScore_eq_one (ex res : TranslationResult)
    (htext : pyLower (pyStrip ex.translated_text) = pyLower (pyStrip res.translated_text))
    (hdist : qadd (qabs (qsub ex.x res.x)) (qabs (qsub ex.y res.y)) = 0) :
    textScore ex res = 1 := by
  unfold textScore
  rw [if_pos (Or.inl htext), hdist]
  rw [if_pos (show (0 : ℚ) < 500 by decide)]
  decide

theorem textScore_le_similarityScore (ex res : TranslationResult) :
    textScore ex res ≤ similarityScore ex res := by
  unfold similarityScore
  split
  · rw [qmax_eq, qmax_eq]
    exact le_trans (le_max_left _ _) (le_max_left _ _)
  · rw [qmax_eq]
    exact le_max_left _ _

theorem bestOrCreate_set (bubbles : List Bubble) (res : TranslationResult)
    (acc : ScanAcc) (i : ℕ) (hbest : acc.bestIdx = some i)
    (hi : i < bubbles.length) (hsc : mkRat 2 5 < acc.bestScore) :
    bestOrCreate bubbles res acc
      = bubbles.set i ⟨updateContent (bubbles.get ⟨i, hi⟩).result res, true⟩ := by
  simp only [bestOrCreate, hbest, if_pos hsc, List.get?_eq_get hi]

/-! ## Claim C7 — identical text at zero distance is matched, not duplicated -/

/-- C7: a live annotation whose normalized text equals the new merged
result's and whose source-rect origins are at Manhattan distance 0 gives a
similarity score of at least 0.7 (its text score is exactly
`0.7 + 0.3 · (1 − 0/500) = 1`), above the 0.4 decision cutoff; processing
that result updates an existing annotation in place (some bubble is
replaced and marked matched, at an existing index) and creates no new
annotation (the bubble count is unchanged). -/
theorem c7_identical_text_zero_distance (bubbles : List Bubble)
    (res : TranslationResult) (b : Bubble) (hb : b ∈ bubbles)
    (htext : pyLower (pyStrip b.result.translated_text)
      = pyLower (pyStrip res.translated_text))
    (hdist : qadd (qabs (qsub b.result.x res.x)) (qabs (qsub b.result.y res.y)) = 0) :
    mkRat 7 10 ≤ similarityScore b.result res
    ∧ mkRat 2 5 < similarityScore b.result res
    ∧ (processResult bubbles res).length = bubbles.length
    ∧ ∃ i r', i < bubbles.length
        ∧ processResult bubbles res = bubbles.set i ⟨r', true⟩ := by
  have hts := textScore_eq_one b.result res htext hdist
  have hsim : (1 : ℚ) ≤ similarityScore b.result res :=
    hts ▸ textScore_le_similarityScore b.result res
  have hscore7 : mkRat 7 10 ≤ similarityScore b.result res :=
    le_trans (show mkRat 7 10 ≤ (1 : ℚ) by decide) hsim
  have hscore25 : mkRat 2 5 < similarityScore b.result res :=
    lt_of_lt_of_le (show mkRat 2 5 < (1 : ℚ) by decide) hsim
  have hbestge : (1 : ℚ) ≤ (scanBubbles bubbles res).bestScore :=
    le_trans hsim (scanGo_bestScore_ge res bubbles b hb 0 _)
  have hbest25 : mkRat 2 5 < (scanBubbles bubbles res).bestScore :=
    lt_of_lt_of_le (show mkRat 2 5 < (1 : ℚ) by decide) hbestge
  have hidx : ∃ i, (scanBubbles bubbles res).bestIdx = some i := by
    cases h : (scanBubbles bubbles res).bestIdx with
    | some i => exact ⟨i, rfl⟩
    | none =>
      have h0 := scanGo_none_score res bubbles 0 ⟨none, 0, none⟩ (fun _ => rfl) h
      rw [scanBubbles] at hbestge
      rw [h0] at hbestge
      exact absurd hbestge (by decide)
  obtain ⟨i, hbesti⟩ := hidx
  have hi : i < bubbles.length := by
    have := scanGo_bestIdx_lt res bubbles 0 ⟨none, 0, none⟩
      (fun j hj => Option.noConfusion hj) i hbesti
    simpa using this
  have hshape : ∃ j r', j < bubbles.length
      ∧ processResult bubbles res = bubbles.set j ⟨r', true⟩ := by
    cases happ : (scanBubbles bubbles res).appendIdx with
    | some j =>
      have hj : j < bubbles.length := by
        have := scanGo_appendIdx_lt res bubbles 0 ⟨none, 0, none⟩
          (fun j' hj' => Option.noConfusion hj') j happ
        simpa using this
      by_cases hstr : pyStrip res.translated_text ≠ ""
      · refine ⟨j, updateContent (bubbles.get ⟨j, hj⟩).result
          (appendBelowResult (bubbles.get ⟨j, hj⟩).result res), hj, ?_⟩
        simp only [processResult, happ, if_pos hstr, List.get?_eq_get hj]
      · refine ⟨i, updateContent (bubbles.get ⟨i, hi⟩).result res, hi, ?_⟩
        simp only [processResult, happ, if_neg hstr]
        exact bestOrCreate_set bubbles res _ i hbesti hi hbest25
    | none =>
      refine ⟨i, updateContent (bubbles.get ⟨i, hi⟩).result res, hi, ?_⟩
      simp only [processResult, happ]
      exact bestOrCreate_set bubbles res _ i hbesti hi hbest25
  obtain ⟨j, r', hj, hpr⟩ := hshape
  exact ⟨hscore7, hscore25, by rw [hpr, List.length_set], ⟨j, r', hj, hpr⟩⟩

/-- C7 witness: the theorem applied to a single live `"hello"` annotation
and an identical new result at the same origin. -/
theorem c7_identical_text_zero_distance_witness :
    mkRat 7 10 ≤ similarityScore ovHello ovHello
    ∧ (processResult [⟨ovHello, false⟩] ovHello).length = 1 := by
  have h := c7_identical_text_zero_distance [⟨ovHello, false⟩] ovHello
    ⟨ovHello, false⟩ (by decide) (by decide) (by decide)
  exact ⟨h.1, h.2.2.1.trans rfl⟩

/-! ## Translation-service lemmas (for C9) -/

theorem phase1Step_results_length (model src tgt : String) (acc : Phase1Acc)
    (ir : ℕ × OcrRegion) :
    (phase1Step model src tgt acc ir).results.length
      = acc.results.length + (if pyStrip ir.2.text = "" then 0 else 1) := by
  unfold phase1Step
  split
  · simp
  · split
    · simp
    · simp

theorem phase1Go_results_length (model src tgt : String) (l : List OcrRegion) :
    ∀ (i : ℕ) (acc : Phase1Acc),
      (phase1Go model src tgt l i acc).results.length
        = acc.results.length + (l.filter fun r => pyStrip r.text ≠ "").length := by
  induction l with
  | nil => intro i acc; simp [phase1Go]
  | cons r rest ih =>
    intro i acc
    rw [phase1Go, ih, phase1Step_results_length]
    by_cases h : pyStrip r.text = ""
    · simp [List.filter, h]
    · simp only [List.filter, h, decide_not]
      simp
      omega

theorem phase1Go_results_good (model src tgt : String)
    (regions : List OcrRegion) (l : List OcrRegion) :
    ∀ (i : ℕ) (acc : Phase1Acc),
      (∀ j r', l.get? j = some r' → regions.get? (i + j) = some r') →
      (∀ o ∈ acc.results, ∀ t, o = some t → goodResult regions t) →
      ∀ o ∈ (phase1Go model src tgt l i acc).results, ∀ t, o = some t →
        goodResult regions t := by
  induction l with
  | nil => intro i acc _ hres; exact hres
  | cons r rest ih =>
    intro i acc hl hres
    refine ih (i + 1) _ (fun j r' hj => ?_) ?_
    · have := hl (j + 1) r' (by simpa using hj)
      simpa [Nat.add_assoc, Nat.add_comm, Nat.add_left_comm] using this
    · intro o ho t hot
      have hrmem : r ∈ regions := by
        have := hl 0 r rfl
        exact List.get?_mem (by simpa using this)
      unfold phase1Step at ho
      by_cases hblank : pyStrip r.text = ""
      · rw [if_pos hblank] at ho
        exact hres o ho t hot
      · rw [if_neg hblank] at ho
        revert ho
        split
        · next v c2 heq =>
          intro ho
          rcases List.mem_append.mp ho with h | h
          · exact hres o h t hot
          · have : o = some (mkResult r v) := List.mem_singleton.mp h
            rw [this] at hot
            injection hot with he
            exact ⟨r, hrmem, hblank, by rw [← he, mkResult], by rw [← he, mkResult],
              by rw [← he, mkResult], by rw [← he, mkResult]⟩
        · next c2 heq =>
          intro ho
          rcases List.mem_append.mp ho with h | h
          · exact hres o h t hot
          · have : o = none := List.mem_singleton.mp h
            rw [this] at hot
            exact Option.noConfusion hot

theorem phase1Go_misses_good (model src tgt : String)
    (regions : List OcrRegion) (l : List OcrRegion) :
    ∀ (i : ℕ) (acc : Phase1Acc),
      (∀ j r', l.get? j = some r' → regions.get? (i + j) = some r') →
      (∀ p ∈ acc.misses, ∃ r, regions.get? p.1 = some r
        ∧ pyStrip r.text = p.2 ∧ p.2 ≠ "") →
      ∀ p ∈ (phase1Go model src tgt l i acc).misses,
        ∃ r, regions.get? p.1 = some r ∧ pyStrip r.text = p.2 ∧ p.2 ≠ "" := by
  induction l with
  | nil => intro i acc _ hm; exact hm
  | cons r rest ih =>
    intro i acc hl hm
    refine ih (i + 1) _ (fun j r' hj => ?_) ?_
    · have := hl (j + 1) r' (by simpa using hj)
      simpa [Nat.add_assoc, Nat.add_comm, Nat.add_left_comm] using this
    · intro p hp
      have hri : regions.get? i = some r := by
        have := hl 0 r rfl
        simpa using this
      unfold phase1Step at hp
      by_cases hblank : pyStrip r.text = ""
      · rw [if_pos hblank] at hp
        exact hm p hp
      · rw [if_neg hblank] at hp
        revert hp
        split
        · next v c2 heq =>
          intro hp
          exact hm p hp
        · next c2 heq =>
          intro hp
          rcases List.mem_append.mp hp with h | h
          · exact hm p h
          · have : p = (i, pyStrip r.text) := List.mem_singleton.mp h
            rw [this]
            exact ⟨r, hri, rfl, hblank⟩

theorem applyBatch_results_length (model src tgt : String)
    (regions : List OcrRegion) (triples : List ((ℕ × String) × String)) :
    ∀ (cache : List (TranslationCacheKey × String))
      (results : List (Option TranslationResult)),
      (applyBatch model src tgt regions triples cache results).2.length
        = results.length := by
  induction triples with
  | nil => intro cache results; rfl
  | cons p rest ih =>
    intro cache results
    match p with
    | ((idx, text), tt) =>
      rw [applyBatch]
      split
      · rw [ih]
        exact List.length_set results idx _
      · rfl

theorem applyBatch_results_good (model src tgt : String)
    (regions : List OcrRegion) (triples : List ((ℕ × String) × String))
    (htr : ∀ p ∈ triples, ∃ r, regions.get? p.1.1 = some r
      ∧ pyStrip r.text = p.1.2 ∧ p.1.2 ≠ "") :
    ∀ (cache : List (TranslationCacheKey × String))
      (results : List (Option TranslationResult)),
      (∀ o ∈ results, ∀ t, o = some t → goodResult regions t) →
      ∀ o ∈ (applyBatch model src tgt regions triples cache results).2,
        ∀ t, o = some t → goodResult regions t := by
  induction triples with
  | nil => intro cache results hres; exact hres
  | cons p rest ih =>
    intro cache results hres
    match p with
    | ((idx, text), tt) =>
      obtain ⟨r, hget, hstrip, hne⟩ := htr ((idx, text), tt) (List.mem_cons_self _ _)
      have hgetD : regions.getD idx dfltRegion = r := by
        rw [List.getD_eq_get?, hget]
        rfl
      rw [applyBatch]
      split
      · refine ih (fun q hq => htr q (List.mem_cons_of_mem _ hq)) _ _ ?_
        intro o ho t hot
        rcases List.mem_or_eq_of_mem_set ho with h | h
        · exact hres o h t hot
        · rw [h] at hot
          injection hot with he
          have hrmem : r ∈ regions := List.get?_mem hget
          refine ⟨r, hrmem, by rw [hstrip]; exact hne, ?_, ?_, ?_, ?_⟩ <;>
            rw [← he, hgetD, mkResult]
      · exact hres

/-! ## Claim C9 — the translator's per-region contract -/

/-- C9: `translate_text_regions` returns at most one result per non-blank
region (its output never exceeds the number of regions with non-blank
text), every returned result carries exactly the x/y/width/height of a
region with non-blank text, and the spec's end-to-end example — the single
region `("こんにちは", 100, 100, 80, 20)` translated to `"Hello"` — yields
exactly `TranslationResult(x=100, y=100, w=80, h=20, "Hello")`. -/
theorem c9_translate_text_regions_contract :
    (∀ (model src tgt : String) (cache0 : List (TranslationCacheKey × String))
        (generate : List String → BatchOutcome) (regions : List OcrRegion),
        ((translateTextRegions model src tgt cache0 generate regions).2).length
          ≤ (regions.filter fun r => pyStrip r.text ≠ "").length)
    ∧ (∀ (model src tgt : String) (cache0 : List (TranslationCacheKey × String))
        (generate : List String → BatchOutcome) (regions : List OcrRegion)
        (t : TranslationResult),
        t ∈ (translateTextRegions model src tgt cache0 generate regions).2 →
        goodResult regions t)
    ∧ (translateTextRegions "facebook/nllb-200-distilled-600M" "auto" "English"
        [] exGenerate [exRegionJp]).2 = [exResultHello] := by
  have hlen : ∀ (model src tgt : String) cache0 (regions : List OcrRegion),
      (phase1 model src tgt cache0 regions).results.length
        = (regions.filter fun r => pyStrip r.text ≠ "").length := by
    intro model src tgt cache0 regions
    rw [phase1, phase1Go_results_length]
    simp
  have hgood : ∀ (model src tgt : String) cache0 (regions : List OcrRegion),
      ∀ o ∈ (phase1 model src tgt cache0 regions).results, ∀ t, o = some t →
        goodResult regions t := by
    intro model src tgt cache0 regions
    exact phase1Go_results_good model src tgt regions regions 0 _
      (fun j r' hj => by simpa using hj) (by intro o ho; exact absurd ho (List.not_mem_nil o))
  have hmiss : ∀ (model src tgt : String) cache0 (regions : List OcrRegion),
      ∀ p ∈ (phase1 model src tgt cache0 regions).misses,
        ∃ r, regions.get? p.1 = some r ∧ pyStrip r.text = p.2 ∧ p.2 ≠ "" := by
    intro model src tgt cache0 regions
    exact phase1Go_misses_good model src tgt regions regions 0 _
      (fun j r' hj => by simpa using hj) (by intro p hp; exact absurd hp (List.not_mem_nil p))
  refine ⟨?_, ?_, by decide⟩
  · intro model src tgt cache0 generate regions
    unfold translateTextRegions
    by_cases hm : (phase1 model src tgt cache0 regions).misses.isEmpty
    · rw [if_pos hm]
      exact le_trans (List.length_filterMap_le _ _)
        (le_of_eq (hlen model src tgt cache0 regions))
    · rw [if_neg hm]
      rcases hgen : generate ((phase1 model src tgt cache0 regions).misses.map Prod.snd)
        with _ | _ | texts
      · simp
      · exact le_trans (List.length_filterMap_le _ _)
          (le_of_eq (hlen model src tgt cache0 regions))
      · exact le_trans (List.length_filterMap_le _ _)
          (le_of_eq ((applyBatch_results_length model src tgt regions _ _ _).trans
            (hlen model src tgt cache0 regions)))
  · intro model src tgt cache0 generate regions t ht
    unfold translateTextRegions at ht
    by_cases hm : (phase1 model src tgt cache0 regions).misses.isEmpty
    · rw [if_pos hm] at ht
      obtain ⟨o, ho, hid⟩ := List.mem_filterMap.mp ht
      exact hgood model src tgt cache0 regions o ho t hid
    · rw [if_neg hm] at ht
      rcases hgen : generate ((phase1 model src tgt cache0 regions).misses.map Prod.snd)
        with _ | _ | texts <;> rw [hgen] at ht
      · exact absurd ht (List.not_mem_nil t)
      · obtain ⟨o, ho, hid⟩ := List.mem_filterMap.mp ht
        exact hgood model src tgt cache0 regions o ho t hid
      · obtain ⟨o, ho, hid⟩ := List.mem_filterMap.mp ht
        exact applyBatch_results_good model src tgt regions
          ((phase1 model src tgt cache0 regions).misses.zip texts)
          (fun q hq => hmiss model src tgt cache0 regions q.1 (List.of_mem_zip hq).1)
          _ _ (hgood model src tgt cache0 regions) o ho t hid

/-- C9 witness: the contract applied to the spec's example region — the
returned list is computed concretely and its single element carries the
region's geometry. -/
theorem c9_translate_text_regions_contract_witness :
    ((translateTextRegions "facebook/nllb-200-distilled-600M" "auto" "English"
        [] exGenerate [exRegionJp]).2).length
      ≤ ([exRegionJp].filter fun r => pyStrip r.text ≠ "").length
    ∧ goodResult [exRegionJp] exResultHello :=
  ⟨c9_translate_text_regions_contract.1 "facebook/nllb-200-distilled-600M"
      "auto" "English" [] exGenerate [exRegionJp],
   c9_translate_text_regions_contract.2.1 "facebook/nllb-200-distilled-600M"
      "auto" "English" [] exGenerate [exRegionJp] exResultHello
      (by rw [c9_translate_text_regions_contract.2.2]; exact List.mem_singleton.mpr rfl)⟩

end Xian
